import Mathlib

/-
Verification development for the seedfast-cli seeding core.

The Go sources are embedded shallowly:
  * strings are modeled as `List Char` (the sources only handle ASCII SQL
    text, where Go byte indices coincide with character indices);
  * the handful of regular expressions in the repair engine are simple
    enough that each one is embedded as a dedicated scanner with Go
    regexp leftmost-first semantics (scan start positions left to right,
    greedy character classes; the character classes exclude the following
    delimiter, so maximal munch is complete);
  * Go maps are modeled as association lists (`delete` removes every
    binding of the key, insertion overwrites);
  * database calls, the gRPC transport and the OS clock are external
    collaborators and enter as explicit parameters (oracles).
-/

namespace Seedfast

/-! ## Basic character and string helpers (Go `strings` package subset) -/

/-- Single-quote character, kept as a named constant. -/
def sq : Char := Char.ofNat 39

/-- ASCII lower-casing, the fragment of `strings.ToLower` /
`unicode.ToLower` exercised by the sources (SQL keywords and identifiers). -/
def asciiLower (c : Char) : Char :=
  if 65 ≤ c.toNat ∧ c.toNat ≤ 90 then Char.ofNat (c.toNat + 32) else c

/-- `strings.ToLower` on ASCII text. -/
def lowerStr (s : List Char) : List Char := s.map asciiLower

/-- `strings.EqualFold` on ASCII text. -/
def eqFold (a b : List Char) : Bool := lowerStr a == lowerStr b

/-- Whitespace recognized by Go `unicode.IsSpace` (ASCII part), used by
`strings.TrimSpace`. -/
def isGoSpace (c : Char) : Bool :=
  c == ' ' || c == '\t' || c == '\n' || c == '\r' ||
    c == Char.ofNat 11 || c == Char.ofNat 12

/-- Whitespace class of Go regexp `\s` (RE2: `[\t\n\f\r ]`). -/
def reSpace (c : Char) : Bool :=
  c == ' ' || c == '\t' || c == '\n' || c == '\r' || c == Char.ofNat 12

/-- `strings.TrimSpace`. -/
def trimSpace (s : List Char) : List Char :=
  ((s.dropWhile isGoSpace).reverse.dropWhile isGoSpace).reverse

/-- `strings.Trim(s, cutset)` for a cutset given as a predicate. -/
def trimCutset (p : Char → Bool) (s : List Char) : List Char :=
  ((s.dropWhile p).reverse.dropWhile p).reverse

/-- `strings.Split(s, ",")`: always returns at least one piece. -/
def splitOnComma : List Char → List (List Char)
  | [] => [[]]
  | c :: r =>
    if c == ',' then [] :: splitOnComma r
    else
      match splitOnComma r with
      | [] => [[c]]
      | h :: t => (c :: h) :: t

/-- `strings.Join(parts, ", ")`. -/
def joinCommaSpace : List (List Char) → List Char
  | [] => []
  | [x] => x
  | x :: y :: t => x ++ [',', ' '] ++ joinCommaSpace (y :: t)

/-- First index of the substring `::` (`strings.Index(s, "::")`). -/
def idxDoubleColon : List Char → Option Nat
  | [] => none
  | [_] => none
  | a :: b :: r =>
    if a == ':' && b == ':' then some 0
    else (idxDoubleColon (b :: r)).map (· + 1)

/-- `strings.Replace(s, old, new, 1)` (first occurrence only). -/
def replaceFirst (s pat repl : List Char) : List Char :=
  if pat.isEmpty then repl ++ s
  else go s
where
  go : List Char → List Char
    | [] => []
    | c :: tl =>
      if pat.isPrefixOf (c :: tl) then repl ++ (c :: tl).drop pat.length
      else c :: go tl

/-! ## Generic scanner combinators (embedding of the specific Go regexps) -/

/-- Greedy run of characters satisfying `p` and the remainder
(maximal munch for character classes such as `[^)]+`, `\s*`). -/
def munch (p : Char → Bool) : List Char → List Char × List Char
  | [] => ([], [])
  | c :: r =>
    if p c then
      match munch p r with
      | (a, b) => (c :: a, b)
    else ([], c :: r)

/-- Case-insensitive literal: strip `pat` (given lower-case) from the front. -/
def stripCI : List Char → List Char → Option (List Char)
  | [], s => some s
  | _ :: _, [] => none
  | p :: pr, c :: cr => if asciiLower c == p then stripCI pr cr else none

/-- Leftmost match search: try the matcher at every start position from the
left and return the first hit with its position (Go regexp semantics). -/
def findFrom {α : Type} (f : List Char → Option α) : List Char → Option (Nat × α)
  | [] => (f []).map (fun r => (0, r))
  | c :: tl =>
    match f (c :: tl) with
    | some r => some (0, r)
    | none => (findFrom f tl).map (fun pr => (pr.1 + 1, pr.2))

/-- Character class of a `$name` reference in a Go replacement template
(`regexp.extract`): letters, digits, underscore (ASCII range). -/
def isNameChar (c : Char) : Bool :=
  ('a' ≤ c && c ≤ 'z') || ('A' ≤ c && c ≤ 'Z') || ('0' ≤ c && c ≤ '9') ||
    c == '_'

/-- Numeric-reference parsing of Go `regexp.extract`: the name must be all
digits with no leading zero on a multi-digit name, otherwise it is treated
as a (named-group) name. -/
def refNum (name : List Char) : Option Nat :=
  if name.all (fun c => '0' ≤ c && c ≤ '9') then
    match name with
    | [] => none
    | '0' :: _ :: _ => none
    | _ => some (name.foldl (fun a c => a * 10 + (c.toNat - 48)) 0)
  else none

/-- Go `regexp.extract`: parse the `$name` / `$\x7bname\x7d` reference right
after a `$`; `none` means the reference is malformed and the `$` stays a
literal character. -/
def extractRef (s : List Char) : Option (List Char × List Char) :=
  match s with
  | '{' :: s2 =>
    let name := s2.takeWhile isNameChar
    if name.isEmpty then none
    else
      match s2.drop name.length with
      | '}' :: r2 => some (name, r2)
      | _ => none
  | _ =>
    let name := s.takeWhile isNameChar
    if name.isEmpty then none else some (name, s.drop name.length)

/-- Go `Regexp.expand` over a replacement template: `$$` yields a literal
dollar, a numeric reference `$n` is replaced by group `n` of the match
(`gs.get 0` being the whole match, out-of-range groups by nothing), a
non-numeric name refers to a named group — our regexes have none, so it
expands to nothing — and a malformed `$` stays literal.  Fuel is bounded by
the template length; every step consumes at least one character. -/
def expandFuel (gs : List (List Char)) : Nat → List Char → List Char
  | 0, s => s
  | Nat.succ _, [] => []
  | Nat.succ n, c :: rest =>
    if c == '$' then
      match rest with
      | '$' :: r2 => '$' :: expandFuel gs n r2
      | _ =>
        match extractRef rest with
        | none => '$' :: expandFuel gs n rest
        | some (name, r2) =>
          (match refNum name with
           | some k => gs.getD k []
           | none => []) ++ expandFuel gs n r2
    else c :: expandFuel gs n rest

def expandTemplate (gs : List (List Char)) (tmpl : List Char) : List Char :=
  expandFuel gs (tmpl.length + 1) tmpl

/-- `Regexp.ReplaceAllString`: replace every non-overlapping leftmost match
with the `$`-expanded replacement template, expanded against that match's
groups (`gsOf` lists the capture groups of a match result; the whole match
is prepended as group 0).  Fuel is bounded by the input length; every
embedded pattern consumes at least one character per match, so the fuel
never runs out on a match. -/
def replaceAllFuel {β : Type} (f : List Char → Option (β × List Char))
    (gsOf : β → List (List Char)) (tmpl : List Char) : Nat → List Char → List Char
  | 0, s => s
  | Nat.succ n, s =>
    match f s with
    | some (cap, rest) =>
      expandTemplate (s.take (s.length - rest.length) :: gsOf cap) tmpl ++
        replaceAllFuel f gsOf tmpl n rest
    | none =>
      match s with
      | [] => []
      | c :: tl => c :: replaceAllFuel f gsOf tmpl n tl

def replaceAllM {β : Type} (f : List Char → Option (β × List Char))
    (gsOf : β → List (List Char)) (tmpl : List Char) (s : List Char) :
    List Char :=
  replaceAllFuel f gsOf tmpl (s.length + 1) s

/-! ## The concrete matchers of `part_011` / `schema.go` -/

/-- Matcher for `(?i)INSERT\s+INTO\s+([^\s(]+)\s*\(([^)]+)\)` at the current
position.  Returns (table capture, column-list capture, rest after match). -/
def tryInsertHead (s : List Char) : Option (List Char × List Char × List Char) :=
  match stripCI ['i', 'n', 's', 'e', 'r', 't'] s with
  | none => none
  | some s1 =>
    match munch reSpace s1 with
    | ([], _) => none
    | (_ :: _, s2) =>
      match stripCI ['i', 'n', 't', 'o'] s2 with
      | none => none
      | some s3 =>
        match munch reSpace s3 with
        | ([], _) => none
        | (_ :: _, s4) =>
          match munch (fun c => !(reSpace c) && c != '(') s4 with
          | ([], _) => none
          | (t, s5) =>
            match munch reSpace s5 with
            | (_, '(' :: s6) =>
              match munch (fun c => c != ')') s6 with
              | ([], _) => none
              | (cap, s7) =>
                match s7 with
                | ')' :: s8 => some (t, cap, s8)
                | _ => none
            | _ => none

/-- `tryInsertHead` with the two captures regrouped so that the remainder is
the second pair component (the shape `replaceAllM` consumes). -/
def tryInsertHeadR (s : List Char) :
    Option ((List Char × List Char) × List Char) :=
  (tryInsertHead s).map (fun r => ((r.1, r.2.1), r.2.2))

/-- Matcher for `(?i)INSERT\s+INTO\s+([^\s(]+)\s*\(([^)]+)\)\s*VALUES`
(the `insertRegex` of `parseInsertStatement`). -/
def tryInsertHeadValues (s : List Char) :
    Option (List Char × List Char × List Char) :=
  match tryInsertHead s with
  | none => none
  | some (t, cap, s8) =>
    match munch reSpace s8 with
    | (_, s9) =>
      match stripCI ['v', 'a', 'l', 'u', 'e', 's'] s9 with
      | none => none
      | some s10 => some (t, cap, s10)

/-- Matcher for `(?i)\s+VALUES\s*\(` (the `valuesRegex` used for
`FindStringIndex` in `parseInsertStatement`). -/
def tryWsValuesOpen (s : List Char) : Option (List Char) :=
  match munch reSpace s with
  | ([], _) => none
  | (_ :: _, s1) =>
    match stripCI ['v', 'a', 'l', 'u', 'e', 's'] s1 with
    | none => none
    | some s2 =>
      match munch reSpace s2 with
      | (_, '(' :: s3) => some s3
      | _ => none

/-- Matcher for `(?i)VALUES\s*\(([^)]+)\)` (the `valuesRegex` of
`removeIdColumnAndValue`).  Returns (capture, rest after match). -/
def tryValuesClause (s : List Char) : Option (List Char × List Char) :=
  match stripCI ['v', 'a', 'l', 'u', 'e', 's'] s with
  | none => none
  | some s1 =>
    match munch reSpace s1 with
    | (_, '(' :: s2) =>
      match munch (fun c => c != ')') s2 with
      | ([], _) => none
      | (cap, s3) =>
        match s3 with
        | ')' :: s4 => some (cap, s4)
        | _ => none
    | _ => none

/-- Regex backtracking step for `\s*([^X]+)`: the greedy `\s*` gives back one
character when the bracket class would otherwise be empty (the class includes
whitespace, so an all-whitespace run still matches with a one-char capture). -/
def capAfterWs (run : List Char) : Option (List Char) :=
  match run with
  | [] => none
  | _ :: _ =>
    match (munch reSpace run).2 with
    | [] => (run.getLast?).map (fun c => [c])
    | rest => some rest

/-- Matcher for `(?i)IN\s*\(\s*([^)]+)\)` (enum extraction, `IN` idiom). -/
def tryInClause (s : List Char) : Option (List Char) :=
  match stripCI ['i', 'n'] s with
  | none => none
  | some s1 =>
    match munch reSpace s1 with
    | (_, '(' :: s2) =>
      match munch (fun c => c != ')') s2 with
      | (run, ')' :: _) => capAfterWs run
      | _ => none
    | _ => none

/-- Matcher for `(?i)=\s*ANY\s*\(\s*ARRAY\s*\[([^\]]+)\]` (enum extraction,
`ANY (ARRAY[...])` idiom). -/
def tryAnyArray (s : List Char) : Option (List Char) :=
  match s with
  | '=' :: s1 =>
    match munch reSpace s1 with
    | (_, s2) =>
      match stripCI ['a', 'n', 'y'] s2 with
      | none => none
      | some s3 =>
        match munch reSpace s3 with
        | (_, '(' :: s4) =>
          match munch reSpace s4 with
          | (_, s5) =>
            match stripCI ['a', 'r', 'r', 'a', 'y'] s5 with
            | none => none
            | some s6 =>
              match munch reSpace s6 with
              | (_, '[' :: s7) =>
                match munch (fun c => c != ']') s7 with
                | ([], _) => none
                | (cap, ']' :: _) => some cap
                | _ => none
              | _ => none
        | _ => none
  | _ => none

/-! ## Schema metadata (`schema.go`) -/

/-- `SchemaInfo` of `schema.go`: table constraint metadata.  The Go maps
become association lists. -/
structure SchemaInfo where
  tableName : List Char
  primaryKeyCols : List (List Char)
  autoIncrement : List (List Char × Bool)
  checkConstraints : List (List Char × List Char)
  enumValues : List (List Char × List (List Char))

/-- Go map lookup (`v, exists := m[k]`) on an association list. -/
def lookupA {β : Type} (m : List (List Char × β)) (k : List Char) : Option β :=
  match m.find? (fun p => p.1 == k) with
  | some p => some p.2
  | none => none

/-- `parseEnumValueList` of `schema.go`: split on commas, trim whitespace,
trim quote characters, then cut at a `::` type cast, dropping empties.
Note the order: quotes are trimmed before the cast is cut. -/
def parseEnumValueList (valueList : List Char) : List (List Char) :=
  ((splitOnComma valueList).map (fun v =>
      let v1 := trimSpace v
      let v2 := trimCutset (fun c => c == sq || c == '"') v1
      match idxDoubleColon v2 with
      | some i => v2.take i
      | none => v2)).filter (fun v => !v.isEmpty)

/-- `extractEnumValues` of `schema.go`: try the `IN (...)` idiom first, then
the `= ANY (ARRAY[...])` idiom. -/
def extractEnumValues (checkClause : List Char) : List (List Char) :=
  match findFrom tryInClause checkClause with
  | some (_, cap) => parseEnumValueList cap
  | none =>
    match findFrom tryAnyArray checkClause with
    | some (_, cap) => parseEnumValueList cap
    | none => []

/-! ## SQL repair engine (`part_011`, package `sqlexec`) -/

/-- `parseColumnList`: split by comma, trim spaces, keep non-empty. -/
def parseColumnList (columnsStr : List Char) : List (List Char) :=
  ((splitOnComma columnsStr).map trimSpace).filter (fun c => !c.isEmpty)

/-- `parseInsertStatement`: returns (tableName, columns, valuesStart,
hasIdColumn); tableName is empty and valuesStart is -1 when the respective
regex does not match. -/
def parseInsertStatement (sql : List Char) :
    List Char × List (List Char) × Int × Bool :=
  match findFrom tryInsertHeadValues sql with
  | none => ([], [], -1, false)
  | some (_, t, colsStr, _) =>
    let columns := parseColumnList colsStr
    let hasId := columns.any (fun c => lowerStr c == ['i', 'd'])
    let valuesStart : Int :=
      match findFrom tryWsValuesOpen sql with
      | some (k, _) => (k : Int)
      | none => -1
    (t, columns, valuesStart, hasId)

/-- First index satisfying `p` (the Go `for i, col := range` search loop). -/
def findIdxP (p : List Char → Bool) : List (List Char) → Option Nat
  | [] => none
  | c :: r => if p c then some 0 else (findIdxP p r).map (· + 1)

/-- `removeIdColumnAndValue`: drop the first `id`-named column (and the value
at the same position) and rebuild the statement with the two
`ReplaceAllString` calls of the source. -/
def removeIdColumnAndValue (sql : List Char) (columns : List (List Char)) :
    List Char × Option String :=
  match findIdxP (fun c => lowerStr c == ['i', 'd']) columns with
  | none => (sql, none)
  | some idIndex =>
    let newColumns := columns.eraseIdx idIndex
    match findFrom tryValuesClause sql with
    | none => (sql, some "could not parse VALUES clause")
    | some (_, valuesStr, _) =>
      let values := parseColumnList valuesStr
      if values.length ≤ idIndex then
        (sql, some "VALUES clause has fewer values than columns")
      else
        let newValues := values.eraseIdx idIndex
        let newColumnsStr := joinCommaSpace newColumns
        let newValuesStr := joinCommaSpace newValues
        let result := replaceAllM tryValuesClause (fun cap => [cap])
          (['V', 'A', 'L', 'U', 'E', 'S', ' ', '('] ++ newValuesStr ++ [')']) sql
        let result2 :=
          match findFrom tryInsertHead result with
          | some (_, tableName, _, _) =>
            replaceAllM tryInsertHeadR (fun cap => [cap.1, cap.2])
              (['I', 'N', 'S', 'E', 'R', 'T', ' ', 'I', 'N', 'T', 'O', ' '] ++
                tableName ++ [' ', '('] ++ newColumnsStr ++ [')']) result
          | none => result
        (result2, none)

/-- `extractAndFixValue`: scan the VALUES region for the value at
`valueIndex`, tracking parenthesis depth exactly as the Go rune loop does.
The middle component is the (unchanged) statement, as in the source. -/
def extractAndFixValue (sql : List Char) (valuesStart : Nat) (valueIndex : Nat) :
    List Char × List Char × Option String :=
  let valuesPart := sql.drop valuesStart
  match loop valuesPart valueIndex valuesPart 0 0 (-1) 0 with
  | (v, e) => (v, sql, e)
where
  /-- One step per character: `(` / `)` adjust depth, `,` at depth 1 delimits
  values; hitting depth 0 on `)` ends the VALUES clause. -/
  loop (valuesPart : List Char) (valueIndex : Nat) :
      List Char → Nat → Int → Int → Nat → List Char × Option String
    | [], _, _, _, _ => ([], some "could not extract value at index")
    | c :: rest, i, parenCount, valueStart, currentIndex =>
      if c == '(' then
        let pc := parenCount + 1
        let vs := if pc == 1 && valueStart == -1 then ((i : Int) + 1) else valueStart
        loop valuesPart valueIndex rest (i + 1) pc vs currentIndex
      else if c == ')' then
        let pc := parenCount - 1
        if pc == 0 then ([], none)
        else loop valuesPart valueIndex rest (i + 1) pc valueStart currentIndex
      else if c == ',' then
        if parenCount == 1 && currentIndex == valueIndex then
          (trimSpace ((valuesPart.drop valueStart.toNat).take (i - valueStart.toNat)),
            none)
        else if parenCount == 1 then
          loop valuesPart valueIndex rest (i + 1) parenCount ((i : Int) + 1)
            (currentIndex + 1)
        else loop valuesPart valueIndex rest (i + 1) parenCount valueStart currentIndex
      else loop valuesPart valueIndex rest (i + 1) parenCount valueStart currentIndex

/-- One iteration of Fix 2 of `FixSeedingSQL` (the enum-constraint loop
body) for the indexed column `p`: extract the positional value, test it
case-insensitively against the allowed values, and on a mismatch replace
the single-quoted value by the first allowed one via `strings.Replace`. -/
def enumFixStep (enumValues : List (List Char × List (List Char)))
    (valuesStart : Int) (acc : List Char) (p : Nat × List Char) : List Char :=
  match lookupA enumValues p.2 with
  | some (v0 :: vrest) =>
    if 0 ≤ valuesStart then
      match extractAndFixValue acc valuesStart.toNat p.1 with
      | (value, newSQL, none) =>
        if !value.isEmpty then
          if (v0 :: vrest).any (fun vv => eqFold value vv) then acc
          else replaceFirst newSQL (sq :: value ++ [sq]) (sq :: v0 ++ [sq])
        else acc
      | (_, _, some _) => acc
    else acc
  | _ => acc

/-- `SQLFixer.FixSeedingSQL`: the schema lookup (`GetSchemaInfo`, a database
query) is abstracted as the `getInfo` oracle; `none` models a lookup error.
Every Go return path returns a nil error, hence the `Option String` error
component is part of the result for the error-totality claims. -/
def fixSeedingSQL (getInfo : List Char → Option SchemaInfo) (sql : List Char) :
    List Char × Option String :=
  match parseInsertStatement sql with
  | (tableName, columns, valuesStart, hasIdColumn) =>
    if tableName.isEmpty then (sql, none)
    else
      match getInfo tableName with
      | none => (sql, none)
      | some schemaInfo =>
        -- Fix 1: drop an explicit id for a sequence-backed `id` primary key
        let sql1 :=
          if hasIdColumn && !schemaInfo.primaryKeyCols.isEmpty then
            match schemaInfo.primaryKeyCols.find? (fun pkCol =>
                (match lookupA schemaInfo.autoIncrement pkCol with
                 | some true => true
                 | _ => false) && lowerStr pkCol == ['i', 'd']) with
            | some _ => (removeIdColumnAndValue sql columns).1
            | none => sql
          else sql
        -- Fix 2: replace enum values that fail the case-insensitive check
        let sql2 := (columns.enum).foldl
          (enumFixStep schemaInfo.enumValues valuesStart) sql1
        (sql2, none)

/-! ## Progress Reconciler (`part_017`, the seed command event loop)

The event-loop goroutine of `seedCmd` is a fold over the decoded events.
Payload JSON decoding is transport plumbing; the event type below carries
already-decoded payloads, with dedicated constructors for
decode failures (whose handlers fall through, leaving the state unchanged).
UI-only state (spinners, areas, rendered lines) is omitted; `scopeShown` is
kept because it guards the `ask_human` expected-table capture. -/

/-- Go `map[string]struct\x7b\x7d` insertion on a set kept as a list. -/
def insertSet (l : List String) (x : String) : List String :=
  if l.contains x then l else l ++ [x]

/-- Keys test for a Go map kept as an association list. -/
def hasKey {β : Type} (l : List (String × β)) (x : String) : Bool :=
  l.any (fun p => p.1 == x)

/-- Go `delete(m, x)` on an association list. -/
def eraseKey {β : Type} (l : List (String × β)) (x : String) : List (String × β) :=
  l.filter (fun p => p.1 != x)

/-- Go `m[x] = v` on an association list. -/
def upsert {β : Type} (l : List (String × β)) (x : String) (v : β) :
    List (String × β) :=
  if hasKey l x then l.map (fun p => if p.1 == x then (x, v) else p)
  else l ++ [(x, v)]

/-- The session events consumed by the reconciler loop.  `planProposedBad`
and `askHumanBad` model frames whose payload JSON fails to decode (the
handler body is skipped); `otherEvent` models any unrecognized event type
(the default branch only suppresses rendering). -/
inductive Ev where
  | streamError (msg : String)
  | streamClosed
  | workflowCompleted
  | planProposed (tables : List String) (preview : String)
  | planProposedBad
  | askHuman (contextTables : List String)
  | askHumanBad
  | sessionReady
  | tableStarted (name : String) (remaining : Int)
  | tableDone (name : String)
  | tableFailed (name : String) (reason : String)
  | otherEvent
deriving DecidableEq

/-- The reconciler state: the mutable locals of `seedCmd` that the event
loop reads and writes.  `halted` models having left the `range` loop via
`break`. -/
structure RState where
  active : List (String × Int)
  completed : List String
  failed : List (String × String)
  order : List String
  doneTables : List String
  expectedTables : List String
  expectedCount : Nat
  scopeShown : Bool
  streamClosed : Bool
  streamErr : Option String
  workflowCompleted : Bool
  seedingFailed : Bool
  halted : Bool
deriving DecidableEq

def initRState : RState :=
  { active := [], completed := [], failed := [], order := [], doneTables := [],
    expectedTables := [], expectedCount := 0, scopeShown := false,
    streamClosed := false, streamErr := none, workflowCompleted := false,
    seedingFailed := false, halted := false }

/-- One iteration of the `for name := range active` flush of the
`workflow_completed` handler: move an active table into `completed` and
extend the expected set when the plan missed it. -/
def wcFlushStep (acc : RState) (p : String × Int) : RState :=
  let acc1 := { acc with active := eraseKey acc.active p.1,
                         completed := insertSet acc.completed p.1 }
  if acc1.expectedTables.contains p.1 then acc1
  else
    let et := acc1.expectedTables ++ [p.1]
    { acc1 with expectedTables := et, expectedCount := et.length }

/-- One iteration of the event loop of `seedCmd` (lines 407-657). -/
def stepEv (s : RState) (e : Ev) : RState :=
  if s.halted then s
  else
    match e with
    | .streamError msg => { s with streamErr := some msg, halted := true }
    | .streamClosed => { s with streamClosed := true, halted := true }
    | .workflowCompleted =>
      -- flush every still-active table into completed, extending expected
      let s1 := s.active.foldl wcFlushStep s
      { s1 with workflowCompleted := true, halted := true }
    | .planProposed tables preview =>
      -- resetAreaState, then capture the expected tables from the plan
      let s1 := { s with active := [], completed := [], failed := [],
                         order := [], expectedTables := [], expectedCount := 0 }
      let s2 :=
        if tables.isEmpty then s1
        else
          let et := tables.foldl insertSet ([] : List String)
          { s1 with expectedTables := et, expectedCount := et.length }
      if preview ≠ "" then { s2 with scopeShown := true }
      else if tables.isEmpty then s2
      else { s2 with scopeShown := true }
    | .planProposedBad => s
    | .askHuman ctxTables =>
      if !s.scopeShown && !ctxTables.isEmpty then
        let et := ctxTables.foldl insertSet s.expectedTables
        { s with expectedTables := et, expectedCount := et.length,
                 scopeShown := true }
      else s
    | .askHumanBad => s
    | .sessionReady => s
    | .tableStarted name remaining =>
      let s1 :=
        if hasKey s.active name then s
        else { s with order := s.order ++ [name] }
      let s2 := { s1 with active := upsert s1.active name remaining }
      if s2.expectedTables.contains name then s2
      else
        let et := s2.expectedTables ++ [name]
        { s2 with expectedTables := et, expectedCount := et.length }
    | .tableDone name =>
      { s with active := eraseKey s.active name,
               completed := insertSet s.completed name,
               doneTables := s.doneTables ++ [name] }
    | .tableFailed name reason =>
      { s with active := eraseKey s.active name,
               failed := upsert s.failed name reason,
               seedingFailed := true }
    | .otherEvent => s

/-- The whole event-loop run. -/
def processEvents (evs : List Ev) : RState := evs.foldl stepEv initRState

/-- The final summary outcome (`seedCmd` lines 739-768): `errorOut` is the
`return streamErr` path, `failure` the failure box, `success` the completion
box, `incomplete` the connection-closed-early warning, and `quiet` the
fall-through that prints nothing. -/
inductive Outcome where
  | errorOut (msg : String)
  | failure
  | success
  | incomplete
  | quiet
deriving DecidableEq

/-- The final summary classification evaluated over the loop state. -/
def classifyOutcome (s : RState) : Outcome :=
  match s.streamErr with
  | some e => .errorOut e
  | none =>
    if s.seedingFailed then .failure
    else if s.workflowCompleted then .success
    else if !s.doneTables.isEmpty then
      if s.expectedCount == 0 || s.completed.length == s.expectedCount then
        .success
      else .incomplete
    else if s.streamClosed then .success
    else .quiet

/-! ### Table-event subsequences

Claim C1 quantifies over sequences of `table_started` / `table_done` /
`table_failed` events only; `TableEv` is that sub-language. -/

inductive TableEv where
  | tStart (name : String) (remaining : Int)
  | tDone (name : String)
  | tFail (name : String) (reason : String)
deriving DecidableEq

def TableEv.name : TableEv → String
  | .tStart n _ => n
  | .tDone n => n
  | .tFail n _ => n

def TableEv.isTerminal : TableEv → Bool
  | .tStart _ _ => false
  | .tDone _ => true
  | .tFail _ _ => true

def TableEv.toEv : TableEv → Ev
  | .tStart n r => .tableStarted n r
  | .tDone n => .tableDone n
  | .tFail n r => .tableFailed n r

/-- Lifecycle well-formedness: once a table has received a terminal event
(`table_done` or `table_failed`), no further event for that table arrives. -/
def wfLifecycle : List TableEv → Bool
  | [] => true
  | e :: rest =>
    (if e.isTerminal then rest.all (fun e2 => e2.name != e.name) else true) &&
      wfLifecycle rest

/-- Names of the `table_done` events, in order (the `doneTables` log). -/
def doneNames (tevs : List TableEv) : List String :=
  tevs.filterMap (fun e => match e with | .tDone n => some n | _ => none)

/-- Names of the `table_started` events, in order. -/
def startNames (tevs : List TableEv) : List String :=
  tevs.filterMap (fun e => match e with | .tStart n _ => some n | _ => none)

/-- Whether some `table_failed` event occurs. -/
def anyFailed (tevs : List TableEv) : Bool :=
  tevs.any (fun e => match e with | .tFail _ _ => true | _ => false)

/-- The kind of the last event mentioning `n` (`none` when no event does).
`true` stands for a start event, `false` for a terminal one. -/
def lastIsStart (n : String) : List TableEv → Option Bool
  | [] => none
  | e :: rest =>
    match lastIsStart n rest with
    | some b => some b
    | none => if e.name == n then some (!e.isTerminal) else none

/-- Is this a `table_done` event for table `n`? -/
def isDoneFor (n : String) : TableEv → Bool
  | .tDone m => m == n
  | _ => false

/-- Is this a `table_failed` event for table `n`? -/
def isFailFor (n : String) : TableEv → Bool
  | .tFail m _ => m == n
  | _ => false

/-- Folding a table-event subsequence into the reconciler state. -/
def foldTevs (s : RState) (tevs : List TableEv) : RState :=
  (tevs.map TableEv.toEv).foldl stepEv s

/-- The expected-table count after a plan for `planTables` and the started
tables of `tevs`: the number of distinct names in plan-then-start order. -/
def expectedCountOf (planTables : List String) (tevs : List TableEv) : Nat :=
  ((startNames tevs).foldl insertSet (planTables.foldl insertSet [])).length

/-- The completed-table count after `tevs`: distinct done names. -/
def completedCountOf (tevs : List TableEv) : Nat :=
  ((doneNames tevs).foldl insertSet []).length

/-! ## Session Bridge (`client.go`, package `grpcclient`) -/

/-- The in-memory fields of `grpcclient.Client` that the send guards read:
whether the stream is up, and the bearer token with its expiry instant
(`time.Time` modeled as a natural number of ticks; the zero value is 0). -/
structure BridgeClient where
  streamInit : Bool
  accessToken : String
  tokenExpiry : Nat
deriving DecidableEq

/-- `Client.isTokenValid`: non-empty token and `time.Now().Before(expiry)`. -/
def isTokenValid (c : BridgeClient) (now : Nat) : Bool :=
  c.accessToken != "" && now < c.tokenExpiry

/-- Frames a client can put on the wire. -/
inductive OutFrame where
  | initFrame (sessionId dbName : String)
  | sqlRespFrame (requestId : String) (success : Bool) (resultJSON : String)
deriving DecidableEq

/-- `Client.Init`: the result paired with the list of transport send
attempts (empty when the method returns before calling `stream.Send`).
`sendResult` is the transport outcome of the send, when one is attempted. -/
def clientInit (c : BridgeClient) (now : Nat) (sendResult : Option String)
    (sessionID dbName : String) : Except String Unit × List OutFrame :=
  if !c.streamInit then (.error "stream not initialized", [])
  else if !isTokenValid c now then (.error "access token expired or invalid", [])
  else if dbName == "" then (.error "dbName is required (cannot be empty)", [])
  else
    match sendResult with
    | some e => (.error e, [.initFrame sessionID dbName])
    | none => (.ok (), [.initFrame sessionID dbName])

/-- `Client.SendSQLResponse`, same conventions as `clientInit`. -/
def clientSendSQLResponse (c : BridgeClient) (now : Nat)
    (sendResult : Option String) (requestID : String) (success : Bool)
    (resultJSON : String) : Except String Unit × List OutFrame :=
  if !c.streamInit then (.error "stream not initialized", [])
  else if !isTokenValid c now then (.error "access token expired or invalid", [])
  else
    match sendResult with
    | some e => (.error e, [.sqlRespFrame requestID success resultJSON])
    | none => (.ok (), [.sqlRespFrame requestID success resultJSON])

/-! ### The receive loop -/

/-- A decoded server frame (`dbpb.ServerMessage`); `unknownMsg` models a
message whose oneof is neither case (the switch drops it silently). -/
inductive ServerMsg where
  | sqlRequest (requestID sqlStatement : String) (isWrite : Bool) (schema : String)
  | uiEvent (eventType payloadJSON : String)
  | unknownMsg
deriving DecidableEq

/-- One result of `stream.Recv()`: a message, EOF, or an error (classified
as a gRPC status `code: message` when `status.FromError` succeeds, otherwise
carried raw). -/
inductive RecvStep where
  | ok (m : ServerMsg)
  | eofStep
  | errStep (status : Option (String × String)) (raw : String)
deriving DecidableEq

def RecvStep.isOk : RecvStep → Bool
  | .ok _ => true
  | _ => false

/-- The message of a synthetic `stream_error` event (`status.FromError`
branch of the receive loop). -/
def classifyErr (status : Option (String × String)) (raw : String) : String :=
  match status with
  | some (code, msg) => code ++ ": " ++ msg
  | none => raw

/-- An event as put on the events channel: type and payload. -/
structure ChanEvent where
  type : String
  message : String
deriving DecidableEq

/-- A task as put on the tasks channel. -/
structure ChanTask where
  requestID : String
  sqlStatement : String
  isWrite : Bool
  schema : String
deriving DecidableEq

/-- What the receive loop has put on the two channels, and whether it has
returned (running both deferred `close` calls). -/
structure LoopOut where
  events : List ChanEvent
  tasks : List ChanTask
  closed : Bool
deriving DecidableEq

/-- `Client.receiveLoop` over a (finite prefix of the) transport result
sequence.  When the list is exhausted without a terminal result the loop is
still blocked in `Recv` — nothing is closed. -/
def receiveLoop : List RecvStep → LoopOut
  | [] => { events := [], tasks := [], closed := false }
  | .eofStep :: _ =>
    { events := [{ type := "stream_closed", message := "stream closed" }],
      tasks := [], closed := true }
  | .errStep st raw :: _ =>
    { events := [{ type := "stream_error", message := classifyErr st raw }],
      tasks := [], closed := true }
  | .ok (.sqlRequest rid sqlS w sch) :: rest =>
    let o := receiveLoop rest
    { o with tasks := { requestID := rid, sqlStatement := sqlS, isWrite := w,
                        schema := sch } :: o.tasks }
  | .ok (.uiEvent ty msg) :: rest =>
    let o := receiveLoop rest
    { o with events := { type := ty, message := msg } :: o.events }
  | .ok .unknownMsg :: rest => receiveLoop rest

/-- The UI events a run of ok-messages forwards. -/
def uiEventsOf (steps : List RecvStep) : List ChanEvent :=
  steps.filterMap (fun st => match st with
    | .ok (.uiEvent ty msg) => some { type := ty, message := msg }
    | _ => none)

/-- The tasks a run of ok-messages forwards. -/
def tasksOf (steps : List RecvStep) : List ChanTask :=
  steps.filterMap (fun st => match st with
    | .ok (.sqlRequest rid sqlS w sch) =>
      some { requestID := rid, sqlStatement := sqlS, isWrite := w, schema := sch }
    | _ => none)

/-- The single synthetic terminal event for a terminal transport result. -/
def synthEvent : RecvStep → List ChanEvent
  | .eofStep => [{ type := "stream_closed", message := "stream closed" }]
  | .errStep st raw => [{ type := "stream_error", message := classifyErr st raw }]
  | .ok _ => []

/-! ## Task executor (`executor.go`) and the worker loop (`part_017`)

The pgx pool, transactions and queries are external collaborators; one
`ExecOracle` value fixes the outcome of every database call the function can
make for one task.  `σ` is the abstract committed database state; `begin`
opens a buffer, `commit` publishes `execEffect`, and the deferred `rollback`
discards the buffer — the transactional semantics of the driver, stated once
here so that the all-or-nothing consequence of the code structure
(begin before exec, commit only after a successful exec) can be proved. -/

structure ExecOracle (σ : Type) where
  /-- `Pool.Acquire` failure, if any. -/
  acquireErr : Option String
  /-- `SET search_path` failure, if any (the code ignores it). -/
  setPathErr : Option String
  /-- `conn.Begin` failure, if any. -/
  beginErr : Option String
  /-- `tx.Exec` failure, if any. -/
  execErr : Option String
  /-- `ct.RowsAffected()` on exec success. -/
  execRows : Int
  /-- What the statement does to the committed state when committed. -/
  execEffect : σ → σ
  /-- `tx.Commit` failure, if any. -/
  commitErr : Option String
  /-- `conn.Query` failure, if any (read path). -/
  queryErr : Option String
  /-- `rows.FieldDescriptions()` names (read path). -/
  queryCols : List String
  /-- Each `rows.Values()` call: a row (values already JSON-rendered) or a
  scan error. -/
  rowResults : List (Except String (List String))
  /-- `rows.Err()` after the scan loop, if any. -/
  rowsIterErr : Option String

/-- The `Result` struct of `executor.go` before JSON marshaling.  In the
JSON envelope `rows_affected` carries `omitempty`, so `rowsAffected = 0`
is exactly the "unset" serialization, and likewise for `errMsg = ""`. -/
structure ExecResult where
  columns : List String
  rows : List (List String)
  rowsAffected : Int
  errMsg : String
deriving DecidableEq

/-- The read-path scan loop: collect rows until the first scan error (which
is recorded and breaks the loop), then let a non-nil `rows.Err()` overwrite
the error field, exactly as lines 216-226 do. -/
def scanRows (rowResults : List (Except String (List String))) :
    List (List String) × String :=
  match rowResults with
  | [] => ([], "")
  | .ok r :: rest =>
    match scanRows rest with
    | (rs, e) => (r :: rs, e)
  | .error e :: _ => ([], e)

/-- `Executor.ExecuteSQLInSchema`.  Returns ((result payload, Go error),
final committed state).  Every Go return path returns a nil Go error; the
`Option String` second component embeds that channel so the totality claim
is a statement about this function, not a typing accident. -/
def executeSQLInSchema {σ : Type} (getInfo : List Char → Option SchemaInfo)
    (o : ExecOracle σ) (db : σ) (sql : List Char) (isWrite : Bool)
    (schema : String) : (ExecResult × Option String) × σ :=
  -- FixSeedingSQL first; on a fixer error the original statement is kept
  let fixed := fixSeedingSQL getInfo sql
  let _sql1 := match fixed.2 with | some _ => sql | none => fixed.1
  match o.acquireErr with
  | some e => (({ columns := [], rows := [], rowsAffected := 0, errMsg := e },
                none), db)
  | none =>
    -- SET search_path is attempted when schema is non-empty; its error is
    -- logged and ignored, so it has no effect on the result
    let _pathErr : Option String := if schema != "" then o.setPathErr else none
    if isWrite then
      match o.beginErr with
      | some e => (({ columns := [], rows := [], rowsAffected := 0, errMsg := e },
                    none), db)
      | none =>
        match o.execErr with
        | some e =>
          -- deferred tx.Rollback discards the buffer
          (({ columns := [], rows := [], rowsAffected := 0, errMsg := e },
            none), db)
        | none =>
          match o.commitErr with
          | some e =>
            (({ columns := [], rows := [], rowsAffected := o.execRows,
                errMsg := "commit failed: " ++ e }, none), db)
          | none =>
            (({ columns := [], rows := [], rowsAffected := o.execRows,
                errMsg := "" }, none), o.execEffect db)
    else
      match o.queryErr with
      | some e => (({ columns := [], rows := [], rowsAffected := 0, errMsg := e },
                    none), db)
      | none =>
        match scanRows o.rowResults with
        | (rs, scanErr) =>
          let finalErr :=
            match o.rowsIterErr with
            | some e2 => e2
            | none => scanErr
          (({ columns := o.queryCols, rows := rs, rowsAffected := 0,
              errMsg := finalErr }, none), db)

/-- One attempted `SendSQLResponse` call of a worker, with the payload kept
structured (the Go code serializes `ExecResult` to JSON at this point). -/
structure WorkerSend where
  requestID : String
  success : Bool
  result : ExecResult
deriving DecidableEq

/-- The per-task body of a worker goroutine (`part_017` lines 682-726):
skip the task when the executor returns a non-nil Go error, otherwise derive
`success` from the error field of the payload and attempt exactly one
response send (a failed send is logged, the attempt still happened).
Returns the list of response attempts for this task. -/
def workerHandle {σ : Type} (getInfo : List Char → Option SchemaInfo)
    (o : ExecOracle σ) (db : σ) (task : ChanTask) : List WorkerSend :=
  match executeSQLInSchema getInfo o db task.sqlStatement.toList task.isWrite
      task.schema with
  | ((_, some _), _) => []
  | ((res, none), _) =>
    let success := res.errMsg == ""
    [{ requestID := task.requestID, success := success, result := res }]

/-- The write path fails before `tx.Commit` is reached. -/
def writeFailsBeforeCommit {σ : Type} (o : ExecOracle σ) : Bool :=
  o.acquireErr.isSome || o.beginErr.isSome || o.execErr.isSome

/-- All possible pre-commit failures carry a non-empty message
(`err.Error()` of a real error is non-empty). -/
def writeFailMsgsNonempty {σ : Type} (o : ExecOracle σ) : Bool :=
  (match o.acquireErr with | some e => e != "" | none => true) &&
  (match o.beginErr with | some e => e != "" | none => true) &&
  (match o.execErr with | some e => e != "" | none => true)

/-! ## The well-formed INSERT statement family for the id-removal claim

`renderInsert t cols vals` is the canonical single-row INSERT statement
`INSERT INTO t (c1, c2, ...) VALUES (v1, v2, ...)`.  The token predicates
carve out the inputs on which the regex-based parsing of the repair engine
is unambiguous (the spec itself declares the parsing best-effort for a
single statement shape). -/

def insertIntoLit : List Char :=
  ['I', 'N', 'S', 'E', 'R', 'T', ' ', 'I', 'N', 'T', 'O', ' ']

/-- Everything before the VALUES keyword: `INSERT INTO t (c1, c2, ...) `. -/
def headPrefix (t : List Char) (cols : List (List Char)) : List Char :=
  insertIntoLit ++ t ++ [' ', '('] ++ joinCommaSpace cols ++ [')', ' ']

/-- The VALUES clause: `VALUES (v1, v2, ...)`. -/
def valuesTail (vals : List (List Char)) : List Char :=
  ['V', 'A', 'L', 'U', 'E', 'S', ' ', '('] ++ joinCommaSpace vals ++ [')']

def renderInsert (t : List Char) (cols vals : List (List Char)) : List Char :=
  headPrefix t cols ++ valuesTail vals

/-- A table token: non-empty, no whitespace, no opening parenthesis (the
character class of the table capture). -/
def goodTableTok (t : List Char) : Bool :=
  !t.isEmpty && t.all (fun c => !(reSpace c) && c != '(')

/-- A column or value token: non-empty, free of separators and closing
parentheses, and already trimmed. -/
def goodTok (x : List Char) : Bool :=
  !x.isEmpty && x.all (fun c => c != ',' && c != ')') && (trimSpace x == x)

/-- No start position inside `A` (each with the fixed continuation `B`)
matches `f`: the statement does not mimic the pattern before its real
occurrence. -/
def noMatchIn {α : Type} (f : List Char → Option α) (A B : List Char) : Bool :=
  (List.range A.length).all (fun q => (f (A.drop q ++ B)).isNone)

/-! ## Concrete instances used by the claim theorems -/

/-- Schema for the C3 witness: table `users`, sole primary key `id`,
sequence-backed, no enum constraints. -/
def c3schema : SchemaInfo :=
  { tableName := ['u', 's', 'e', 'r', 's'],
    primaryKeyCols := [['i', 'd']],
    autoIncrement := [(['i', 'd'], true)],
    checkConstraints := [],
    enumValues := [] }

/-- Schema oracle for the C3 witness: knows only the `users` table. -/
def c3getInfo (t : List Char) : Option SchemaInfo :=
  if t == ['u', 's', 'e', 'r', 's'] then some c3schema else none

/-- A concrete write oracle whose statement execution fails. -/
def c8oracle : ExecOracle Nat :=
  { acquireErr := none, setPathErr := none, beginErr := none,
    execErr := some "forced failure", execRows := 0,
    execEffect := fun n => n + 1, commitErr := none, queryErr := none,
    queryCols := [], rowResults := [], rowsIterErr := none }


/-- Schema of a table `tasks` whose `status` column has the enum constraint
`(queued, running)` and no sequence-backed primary key. -/
def c4schema : SchemaInfo :=
  { tableName := "tasks".toList, primaryKeyCols := [], autoIncrement := [],
    checkConstraints := [],
    enumValues := [("status".toList, ["queued".toList, "running".toList])] }

def c4getInfo : List Char → Option SchemaInfo :=
  fun tn => if tn == "tasks".toList then some c4schema else none

/-- `INSERT INTO tasks (status, name) VALUES (<q>bogus<q>, <q>x<q>)` with
single quotes around bogus and x. -/
def c4stmt : List Char :=
  "INSERT INTO tasks (status, name) VALUES (".toList ++ [sq] ++
    "bogus".toList ++ [sq] ++ ", ".toList ++ [sq] ++ "x".toList ++ [sq] ++
    ")".toList

/-- `status = ANY (ARRAY[<q>queued<q>::text, <q>running<q>::text])`. -/
def c5clauseAny : List Char :=
  "status = ANY (ARRAY[".toList ++ [sq] ++ "queued".toList ++ [sq] ++
    "::text, ".toList ++ [sq] ++ "running".toList ++ [sq] ++ "::text])".toList

/-- `status IN (<q>queued<q>,<q>running<q>)`. -/
def c5clauseIn : List Char :=
  "status IN (".toList ++ [sq] ++ "queued".toList ++ [sq] ++ ",".toList ++
    [sq] ++ "running".toList ++ [sq] ++ ")".toList

/-- Event sequence delivering both terminal events for table A. -/
def c1evs : List TableEv :=
  [.tStart "A" 0, .tDone "A", .tFail "A" "duplicate key"]

/-- A plan for three tables followed immediately by stream close. -/
def c2cex : List Ev := [.planProposed ["A", "B", "C"] "", .streamClosed]

/-- The event sequence of the claim scenario: three tables started, two
done, then the stream closes. -/
def c2scenario : List Ev :=
  [.tableStarted "A" 0, .tableStarted "B" 0, .tableDone "A", .tableDone "B",
   .tableStarted "C" 0, .streamClosed]

/-! ## C4 — enum repair (code bug)

The enum fix of `FixSeedingSQL` extracts the positional value including its
surrounding quote characters, so the case-insensitive membership test always
fails, and the subsequent `strings.Replace` searches for the value wrapped
in a second pair of quotes, which does not occur in the statement: the
statement is returned unchanged even though the enum value is invalid. -/

/-- C4: on an INSERT whose enum-constrained `status` value `bogus` is not in
the allowed set, the repair engine returns the statement byte-for-byte
unchanged — the claimed replacement with the first allowed value never
happens.  The second conjunct checks the premise of the claim: `bogus` is
not a case-insensitive match of any allowed value. -/
theorem c4_enum_fix_never_rewrites :
    fixSeedingSQL c4getInfo c4stmt = (c4stmt, none) ∧
    ["queued".toList, "running".toList].all
      (fun v => !eqFold "bogus".toList v) = true := by
  constructor
  · rfl
  · decide

/-! ## C5 — enum value extraction (code bug)

`parseEnumValueList` trims quote characters before cutting the `::type`
cast, so in the `= ANY (ARRAY[...])` idiom the closing quote sits inside the
cast suffix and survives: each extracted value keeps a trailing quote. -/

/-- C5: extraction from the `ANY (ARRAY[...])` idiom yields values with a
trailing quote character (`queued<q>` rather than `queued`), while the
`IN (...)` idiom yields clean values. -/
theorem c5_any_array_keeps_trailing_quote :
    extractEnumValues c5clauseAny =
      ["queued".toList ++ [sq], "running".toList ++ [sq]] ∧
    extractEnumValues c5clauseIn = ["queued".toList, "running".toList] := by
  constructor
  · rfl
  · rfl

/-! ## C1 — collection disjointness (corrected)

The `table_done` / `table_failed` handlers have no duplicate guard: a second
terminal event for the same table inserts it into the second collection. -/

/-- C1 counterexample: after `table_started A`, `table_done A`,
`table_failed A`, table A is simultaneously in `completed` and in `failed`;
the second terminal arrival is not a no-op (before it, `failed` had no entry
for A). -/
theorem c1_counterexample :
    (processEvents (c1evs.map TableEv.toEv)).completed.contains "A" = true ∧
    hasKey (processEvents (c1evs.map TableEv.toEv)).failed "A" = true ∧
    hasKey (processEvents ((c1evs.take 2).map TableEv.toEv)).failed "A"
      = false := by
  decide

/-! ## C2 — final outcome classification (corrected)

The final summary claims success when the stream closes with no completed
table at all (`else if streamClosed`), regardless of the expected count. -/

/-- C2 counterexample: a plan for three tables followed by `stream_closed`
with zero completed tables is classified as success, although the completed
count (0) differs from the expected count (3) — the claimed classification
(`otherwise partial`) does not hold on this input. -/
theorem c2_counterexample :
    classifyOutcome (processEvents c2cex) = .success ∧
    (processEvents c2cex).expectedCount = 3 ∧
    (processEvents c2cex).completed.length = 0 ∧
    (processEvents c2cex).streamClosed = true := by
  decide

/-! ## C7 — send guards of the Session Bridge (confirmed) -/

/-- C7: with an initialized stream, any init or response send with an absent
or expired bearer token fails with the auth error and attempts nothing on
the transport; with a valid token, `Init` on an empty `dbName` fails with
the precondition error, again sending nothing. -/
theorem c7_send_guards (c : BridgeClient) (now : Nat)
    (sendResult : Option String) (sessionID dbName requestID json : String)
    (success : Bool) (hStream : c.streamInit = true) :
    (isTokenValid c now = false →
      clientInit c now sendResult sessionID dbName =
        (.error "access token expired or invalid", []) ∧
      clientSendSQLResponse c now sendResult requestID success json =
        (.error "access token expired or invalid", [])) ∧
    (isTokenValid c now = true →
      clientInit c now sendResult sessionID "" =
        (.error "dbName is required (cannot be empty)", [])) := by
  constructor
  · intro hTok
    constructor
    · simp [clientInit, hStream, hTok]
    · simp [clientSendSQLResponse, hStream, hTok]
  · intro hTok
    simp [clientInit, hStream, hTok]

/-- C7 witness: a concrete expired-token client and a concrete valid-token
client with an empty database name. -/
theorem c7_send_guards_witness :
    (clientInit { streamInit := true, accessToken := "tok", tokenExpiry := 5 }
        9 none "" "appdb" = (.error "access token expired or invalid", []) ∧
      clientSendSQLResponse
        { streamInit := true, accessToken := "tok", tokenExpiry := 5 }
        9 none "r1" true "okpayload" =
        (.error "access token expired or invalid", [])) ∧
    clientInit { streamInit := true, accessToken := "tok", tokenExpiry := 5 }
        2 none "" "" = (.error "dbName is required (cannot be empty)", []) := by
  refine ⟨?_, ?_⟩
  · exact (c7_send_guards
      { streamInit := true, accessToken := "tok", tokenExpiry := 5 }
      9 none "" "appdb" "r1" "okpayload" true rfl).1 (by decide)
  · exact (c7_send_guards
      { streamInit := true, accessToken := "tok", tokenExpiry := 5 }
      2 none "" "" "r1" "okpayload" true rfl).2 (by decide)

/-! ## C6 — the repair pipeline is fail-open and error-free (confirmed) -/

/-- C6: `FixSeedingSQL` never returns an error to its caller, and on parse
failure (no INSERT head recognized, empty table name) or schema-info failure
it returns the original statement unmodified. -/
theorem c6_fixer_fail_open (getInfo : List Char → Option SchemaInfo)
    (sql : List Char) :
    (fixSeedingSQL getInfo sql).2 = none ∧
    ((parseInsertStatement sql).1.isEmpty = true →
      fixSeedingSQL getInfo sql = (sql, none)) ∧
    (getInfo (parseInsertStatement sql).1 = none →
      fixSeedingSQL getInfo sql = (sql, none)) := by
  rcases hP : parseInsertStatement sql with ⟨tn, cols, vs, hid⟩
  refine ⟨?_, ?_, ?_⟩
  · by_cases htn : tn.isEmpty
    · simp [fixSeedingSQL, hP, htn]
    · cases hg : getInfo tn <;> simp [fixSeedingSQL, hP, htn, hg]
  · intro htn
    simp [fixSeedingSQL, hP, htn]
  · intro hg
    by_cases htn : tn.isEmpty
    · simp [fixSeedingSQL, hP, htn]
    · simp [fixSeedingSQL, hP, htn, hg]

/-- C6 witness: a non-INSERT statement and an INSERT whose schema lookup
fails are both returned unchanged with a nil error. -/
theorem c6_fixer_fail_open_witness :
    fixSeedingSQL (fun _ => none) "SELECT 1".toList =
      ("SELECT 1".toList, none) ∧
    fixSeedingSQL (fun _ => none) "INSERT INTO t (a, b) VALUES (1, 2)".toList =
      ("INSERT INTO t (a, b) VALUES (1, 2)".toList, none) := by
  refine ⟨?_, ?_⟩
  · exact (c6_fixer_fail_open (fun _ => none) "SELECT 1".toList).2.1 (by decide)
  · exact (c6_fixer_fail_open (fun _ => none)
      "INSERT INTO t (a, b) VALUES (1, 2)".toList).2.2 rfl

/-! ## C8 — write tasks are transactional (confirmed) -/

/-- C8: a write task is executed inside one transaction: when any step
before the commit fails, the result payload has its error field populated
and `rows_affected` zero (hence omitted from the JSON), and the committed
state is untouched; and for every oracle the committed state is
all-or-nothing — unchanged or with the full statement effect applied. -/
theorem c8_write_transactional {σ : Type} (getInfo : List Char → Option SchemaInfo)
    (o o2 : ExecOracle σ) (db : σ) (sql : List Char) (schema : String)
    (hFail : writeFailsBeforeCommit o = true)
    (hMsgs : writeFailMsgsNonempty o = true) :
    ((executeSQLInSchema getInfo o db sql true schema).1.1.errMsg ≠ "" ∧
     (executeSQLInSchema getInfo o db sql true schema).1.1.rowsAffected = 0 ∧
     (executeSQLInSchema getInfo o db sql true schema).2 = db) ∧
    ((executeSQLInSchema getInfo o2 db sql true schema).2 = db ∨
     (executeSQLInSchema getInfo o2 db sql true schema).2 = o2.execEffect db) := by
  constructor
  · cases hA : o.acquireErr with
    | some e =>
      simp [executeSQLInSchema, hA]
      simp [writeFailMsgsNonempty, hA] at hMsgs
      exact hMsgs.1.1
    | none =>
      cases hB : o.beginErr with
      | some e =>
        simp [executeSQLInSchema, hA, hB]
        simp [writeFailMsgsNonempty, hA, hB] at hMsgs
        exact hMsgs.1
      | none =>
        cases hE : o.execErr with
        | some e =>
          simp [executeSQLInSchema, hA, hB, hE]
          simp [writeFailMsgsNonempty, hA, hB, hE] at hMsgs
          exact hMsgs
        | none =>
          exfalso
          simp [writeFailsBeforeCommit, hA, hB, hE] at hFail
  · cases hA : o2.acquireErr with
    | some e => simp [executeSQLInSchema, hA]
    | none =>
      cases hB : o2.beginErr with
      | some e => simp [executeSQLInSchema, hA, hB]
      | none =>
        cases hE : o2.execErr with
        | some e => simp [executeSQLInSchema, hA, hB, hE]
        | none =>
          cases hC : o2.commitErr with
          | some e => simp [executeSQLInSchema, hA, hB, hE, hC]
          | none => simp [executeSQLInSchema, hA, hB, hE, hC]

/-- C8 witness: a forced mid-statement failure leaves the error populated,
`rows_affected` zero, and the committed state unchanged. -/
theorem c8_write_transactional_witness :
    ((executeSQLInSchema (fun _ => none) c8oracle 7
        "INSERT INTO t (a) VALUES (1)".toList true "").1.1.errMsg ≠ "" ∧
     (executeSQLInSchema (fun _ => none) c8oracle 7
        "INSERT INTO t (a) VALUES (1)".toList true "").1.1.rowsAffected = 0 ∧
     (executeSQLInSchema (fun _ => none) c8oracle 7
        "INSERT INTO t (a) VALUES (1)".toList true "").2 = 7) ∧
    ((executeSQLInSchema (fun _ => none) c8oracle 7
        "INSERT INTO t (a) VALUES (1)".toList true "").2 = 7 ∨
     (executeSQLInSchema (fun _ => none) c8oracle 7
        "INSERT INTO t (a) VALUES (1)".toList true "").2 =
        c8oracle.execEffect 7) :=
  c8_write_transactional (fun _ => none) c8oracle c8oracle 7
    "INSERT INTO t (a) VALUES (1)".toList "" (by decide) (by decide)

/-! ## C9 — receive loop termination behavior (confirmed) -/

/-- A run of successfully received messages keeps the loop open: nothing is
closed and the channels carry exactly the forwarded events and tasks. -/
lemma receiveLoop_open (steps : List RecvStep)
    (h : steps.all RecvStep.isOk = true) :
    receiveLoop steps =
      { events := uiEventsOf steps, tasks := tasksOf steps, closed := false } := by
  induction steps with
  | nil => rfl
  | cons st rest ih =>
    cases st with
    | ok m =>
      cases m <;>
        simp_all [receiveLoop, uiEventsOf, tasksOf, RecvStep.isOk]
    | eofStep => simp [RecvStep.isOk] at h
    | errStep st raw => simp [RecvStep.isOk] at h

/-- C9: over any transport sequence consisting of successfully received
messages followed by a terminal result (EOF or error), the receive loop
forwards exactly the messages before the terminal, appends exactly one
synthetic terminal event (`stream_closed` on EOF, `stream_error` with the
classified message on error), ignores everything after, and closes both
channels; a sequence with no terminal result closes nothing. -/
theorem c9_receive_loop (pre : List RecvStep) (term : RecvStep)
    (post openSteps : List RecvStep)
    (hpre : pre.all RecvStep.isOk = true) (hterm : term.isOk = false)
    (hopen : openSteps.all RecvStep.isOk = true) :
    receiveLoop (pre ++ term :: post) =
      { events := uiEventsOf pre ++ synthEvent term, tasks := tasksOf pre,
        closed := true } ∧
    (receiveLoop openSteps).closed = false ∧
    (receiveLoop openSteps).events = uiEventsOf openSteps ∧
    (receiveLoop openSteps).tasks = tasksOf openSteps := by
  refine ⟨?_, ?_, ?_, ?_⟩
  · induction pre with
    | nil =>
      cases term with
      | ok m => simp [RecvStep.isOk] at hterm
      | eofStep => simp [receiveLoop, uiEventsOf, tasksOf, synthEvent]
      | errStep st raw => simp [receiveLoop, uiEventsOf, tasksOf, synthEvent]
    | cons st rest ih =>
      cases st with
      | ok m =>
        cases m <;>
          simp_all [receiveLoop, uiEventsOf, tasksOf, RecvStep.isOk]
      | eofStep => simp [RecvStep.isOk] at hpre
      | errStep st raw => simp [RecvStep.isOk] at hpre
  · rw [receiveLoop_open openSteps hopen]
  · rw [receiveLoop_open openSteps hopen]
  · rw [receiveLoop_open openSteps hopen]

/-- C9 witness: one forwarded event and one forwarded task, then EOF; a
trailing message after the EOF is ignored; an all-ok sequence stays open. -/
theorem c9_receive_loop_witness :
    receiveLoop
        [.ok (.uiEvent "table_done" "payload"),
         .ok (.sqlRequest "r1" "SELECT 1" false ""), .eofStep,
         .ok (.uiEvent "late" "x")] =
      { events := uiEventsOf [RecvStep.ok (.uiEvent "table_done" "payload"),
          RecvStep.ok (.sqlRequest "r1" "SELECT 1" false "")] ++
            synthEvent .eofStep,
        tasks := tasksOf [RecvStep.ok (.uiEvent "table_done" "payload"),
          RecvStep.ok (.sqlRequest "r1" "SELECT 1" false "")],
        closed := true } ∧
    (receiveLoop [RecvStep.ok (.uiEvent "e" "p")]).closed = false ∧
    (receiveLoop [RecvStep.ok (.uiEvent "e" "p")]).events =
      uiEventsOf [RecvStep.ok (.uiEvent "e" "p")] ∧
    (receiveLoop [RecvStep.ok (.uiEvent "e" "p")]).tasks =
      tasksOf [RecvStep.ok (.uiEvent "e" "p")] :=
  c9_receive_loop
    [.ok (.uiEvent "table_done" "payload"),
     .ok (.sqlRequest "r1" "SELECT 1" false "")]
    .eofStep [.ok (.uiEvent "late" "x")] [.ok (.uiEvent "e" "p")]
    (by decide) (by decide) (by decide)

/-! ## C10 — the executor is total in its Go error result (implicit claim,
confirmed) -/

/-- Every return path of `ExecuteSQLInSchema` returns a nil Go error. -/
lemma executor_goErr_none {σ : Type} (getInfo : List Char → Option SchemaInfo)
    (o : ExecOracle σ) (db : σ) (sql : List Char) (isWrite : Bool)
    (schema : String) :
    (executeSQLInSchema getInfo o db sql isWrite schema).1.2 = none := by
  cases hA : o.acquireErr with
  | some e => simp [executeSQLInSchema, hA]
  | none =>
    cases isWrite with
    | true =>
      cases hB : o.beginErr with
      | some e => simp [executeSQLInSchema, hA, hB]
      | none =>
        cases hE : o.execErr with
        | some e => simp [executeSQLInSchema, hA, hB, hE]
        | none =>
          cases hC : o.commitErr with
          | some e => simp [executeSQLInSchema, hA, hB, hE, hC]
          | none => simp [executeSQLInSchema, hA, hB, hE, hC]
    | false =>
      cases hQ : o.queryErr with
      | some e => simp [executeSQLInSchema, hA, hQ]
      | none => simp [executeSQLInSchema, hA, hQ]

/-- C10: for every input and every database outcome the executor returns a
nil Go error — failures live only in the error field of the payload — so a
worker never takes its skip-on-error branch and attempts exactly one
response per consumed task. -/
theorem c10_executor_error_total {σ : Type}
    (getInfo : List Char → Option SchemaInfo) (o : ExecOracle σ) (db : σ)
    (sql : List Char) (isWrite : Bool) (schema : String) (task : ChanTask) :
    (executeSQLInSchema getInfo o db sql isWrite schema).1.2 = none ∧
    (workerHandle getInfo o db task).length = 1 := by
  refine ⟨executor_goErr_none getInfo o db sql isWrite schema, ?_⟩
  unfold workerHandle
  rcases hx : executeSQLInSchema getInfo o db task.sqlStatement.toList
      task.isWrite task.schema with ⟨⟨res, goErr⟩, dbf⟩
  have hnone : goErr = none := by
    have h := executor_goErr_none getInfo o db task.sqlStatement.toList
      task.isWrite task.schema
    rw [hx] at h
    exact h
  subst hnone
  simp

/-! ## Set / association-list lemmas for the reconciler state -/

lemma mem_insertSet {l : List String} {x m : String} :
    m ∈ insertSet l x ↔ m ∈ l ∨ m = x := by
  unfold insertSet
  by_cases h : l.contains x = true
  · simp only [if_pos h]
    constructor
    · exact Or.inl
    · rintro (hm | rfl)
      · exact hm
      · exact List.elem_iff.mp h
  · have hx : ¬ x ∈ l := fun hmem => h (List.elem_iff.mpr hmem)
    simp [if_neg h, List.mem_append, hx]

lemma mem_foldl_insertSet (names : List String) :
    ∀ (l : List String) (m : String),
      m ∈ names.foldl insertSet l ↔ m ∈ l ∨ m ∈ names := by
  induction names with
  | nil => simp
  | cons x t ih =>
    intro l m
    simp only [List.foldl_cons, ih, mem_insertSet, List.mem_cons]
    tauto

lemma hasKey_append {β : Type} (a b : List (String × β)) (m : String) :
    hasKey (a ++ b) m = (hasKey a m || hasKey b m) := by
  simp [hasKey, List.any_append]

lemma hasKey_map_replace {β : Type} (x m : String) (v : β) (l : List (String × β)) :
    hasKey (l.map (fun p => if p.1 == x then (x, v) else p)) m = hasKey l m := by
  induction l with
  | nil => rfl
  | cons p t ih =>
    simp only [List.map_cons, hasKey, List.any_cons] at ih ⊢
    by_cases hp : p.1 = x
    · have hb : (p.1 == x) = true := by simpa using hp
      rw [if_pos hb, ih, hp]
    · have hb : (p.1 == x) = false := by simpa using hp
      rw [if_neg (by simp [hb]), ih]

lemma hasKey_upsert {β : Type} (l : List (String × β)) (x m : String) (v : β) :
    hasKey (upsert l x v) m = (hasKey l m || m == x) := by
  by_cases h : hasKey l x = true
  · rw [upsert, if_pos h, hasKey_map_replace]
    by_cases hm : m = x
    · subst hm; simp [h]
    · simp [hm]
  · rw [upsert, if_neg h, hasKey_append]
    by_cases hm : m = x
    · subst hm; simp [hasKey]
    · have h1 : (x == m) = false := by simp [Ne.symm hm]
      have h2 : (m == x) = false := by simp [hm]
      simp [hasKey, h1, h2]

lemma hasKey_eraseKey {β : Type} (l : List (String × β)) (x m : String) :
    hasKey (eraseKey l x) m = (hasKey l m && !(m == x)) := by
  induction l with
  | nil => simp [hasKey, eraseKey]
  | cons p t ih =>
    simp only [eraseKey, List.filter_cons, hasKey, List.any_cons] at ih ⊢
    by_cases hp : p.1 = x
    · have hb : (p.1 != x) = false := by simp [hp]
      by_cases hm : m = x
      · have hmx : (m == x) = true := by simpa using hm
        have hpm : (p.1 == m) = true := by simp [hp, hm]
        simp only [hb, Bool.false_eq_true, if_false, ih, hmx, Bool.not_true,
          Bool.and_false]
      · have hmx : (m == x) = false := by simpa using hm
        have hpm : (p.1 == m) = false := by simp [hp, Ne.symm hm]
        simp only [hb, Bool.false_eq_true, if_false, ih, hmx, Bool.not_false,
          Bool.and_true, hpm, Bool.false_or]
    · have hb : (p.1 != x) = true := by simp [hp]
      simp only [hb, if_true, List.any_cons, ih]
      cases hpm : (p.1 == m) <;> cases hmx : (m == x) <;> simp [hpm, hmx]
      · -- p.1 == m and m == x would give p.1 = x, contradicting hp
        exact absurd (by rw [(by simpa using hpm : p.1 = m),
          (by simpa using hmx : m = x)]) hp

/-! ## Fold characterization of the reconciler on table events -/

lemma foldTevs_cons (s : RState) (e : TableEv) (r : List TableEv) :
    foldTevs s (e :: r) = foldTevs (stepEv s e.toEv) r := rfl

lemma stepEv_tDone (s : RState) (n : String) (h : s.halted = false) :
    stepEv s (Ev.tableDone n) =
      { s with active := eraseKey s.active n,
               completed := insertSet s.completed n,
               doneTables := s.doneTables ++ [n] } := by
  simp [stepEv, h]

lemma stepEv_tFail (s : RState) (n reason : String) (h : s.halted = false) :
    stepEv s (Ev.tableFailed n reason) =
      { s with active := eraseKey s.active n,
               failed := upsert s.failed n reason,
               seedingFailed := true } := by
  simp [stepEv, h]

lemma stepEv_tStart (s : RState) (n : String) (rem : Int)
    (h : s.halted = false) :
    stepEv s (Ev.tableStarted n rem) =
      { s with order := if hasKey s.active n then s.order else s.order ++ [n],
               active := upsert s.active n rem,
               expectedTables := insertSet s.expectedTables n,
               expectedCount :=
                 if s.expectedTables.contains n then s.expectedCount
                 else (s.expectedTables ++ [n]).length } := by
  cases s with
  | mk a c f o d e ec ss sc se wc sf hl =>
    simp only at h
    subst h
    by_cases h1 : hasKey a n = true <;>
      by_cases h2 : n ∈ e <;>
        simp [stepEv, insertSet, h1, h2]

lemma foldTevs_basic (tevs : List TableEv) : ∀ (s : RState), s.halted = false →
    (foldTevs s tevs).halted = false ∧
    (foldTevs s tevs).streamErr = s.streamErr ∧
    (foldTevs s tevs).streamClosed = s.streamClosed ∧
    (foldTevs s tevs).workflowCompleted = s.workflowCompleted ∧
    (foldTevs s tevs).seedingFailed = (s.seedingFailed || anyFailed tevs) ∧
    (foldTevs s tevs).doneTables = s.doneTables ++ doneNames tevs ∧
    (foldTevs s tevs).completed = (doneNames tevs).foldl insertSet s.completed ∧
    (foldTevs s tevs).expectedTables
      = (startNames tevs).foldl insertSet s.expectedTables := by
  induction tevs with
  | nil =>
    intro s h
    simp [foldTevs, doneNames, startNames, anyFailed, h]
  | cons e r ih =>
    intro s h
    rw [foldTevs_cons]
    cases e with
    | tStart n rem =>
      simp only [TableEv.toEv]
      have hstep := stepEv_tStart s n rem h
      have hh : (stepEv s (Ev.tableStarted n rem)).halted = false := by
        rw [hstep]; exact h
      obtain ⟨b1, b2, b3, b4, b5, b6, b7, b8⟩ := ih _ hh
      rw [hstep] at b1 b2 b3 b4 b5 b6 b7 b8 ⊢
      exact ⟨b1, by rw [b2], by rw [b3], by rw [b4],
        by rw [b5]; simp [anyFailed],
        by rw [b6]; simp [doneNames],
        by rw [b7]; simp [doneNames],
        by rw [b8]; simp [startNames]⟩
    | tDone n =>
      simp only [TableEv.toEv]
      have hstep := stepEv_tDone s n h
      have hh : (stepEv s (Ev.tableDone n)).halted = false := by
        rw [hstep]; exact h
      obtain ⟨b1, b2, b3, b4, b5, b6, b7, b8⟩ := ih _ hh
      rw [hstep] at b1 b2 b3 b4 b5 b6 b7 b8 ⊢
      exact ⟨b1, by rw [b2], by rw [b3], by rw [b4],
        by rw [b5]; simp [anyFailed],
        by rw [b6]; simp [doneNames],
        by rw [b7]; simp [doneNames],
        by rw [b8]; simp [startNames]⟩
    | tFail n reason =>
      simp only [TableEv.toEv]
      have hstep := stepEv_tFail s n reason h
      have hh : (stepEv s (Ev.tableFailed n reason)).halted = false := by
        rw [hstep]; exact h
      obtain ⟨b1, b2, b3, b4, b5, b6, b7, b8⟩ := ih _ hh
      rw [hstep] at b1 b2 b3 b4 b5 b6 b7 b8 ⊢
      exact ⟨b1, by rw [b2], by rw [b3], by rw [b4],
        by rw [b5]; simp [anyFailed],
        by rw [b6]; simp [doneNames],
        by rw [b7]; simp [doneNames],
        by rw [b8]; simp [startNames]⟩

lemma foldTevs_failed (tevs : List TableEv) : ∀ (s : RState) (n : String),
    s.halted = false →
    hasKey (foldTevs s tevs).failed n
      = (hasKey s.failed n || tevs.any (isFailFor n)) := by
  induction tevs with
  | nil => intro s n h; simp [foldTevs]
  | cons e r ih =>
    intro s n h
    rw [foldTevs_cons]
    cases e with
    | tStart m rem =>
      simp only [TableEv.toEv]
      have hstep := stepEv_tStart s m rem h
      have hh : (stepEv s (Ev.tableStarted m rem)).halted = false := by
        rw [hstep]; exact h
      rw [ih _ n hh, hstep]
      simp [isFailFor]
    | tDone m =>
      simp only [TableEv.toEv]
      have hstep := stepEv_tDone s m h
      have hh : (stepEv s (Ev.tableDone m)).halted = false := by
        rw [hstep]; exact h
      rw [ih _ n hh, hstep]
      simp [isFailFor]
    | tFail m reason =>
      simp only [TableEv.toEv]
      have hstep := stepEv_tFail s m reason h
      have hh : (stepEv s (Ev.tableFailed m reason)).halted = false := by
        rw [hstep]; exact h
      rw [ih _ n hh, hstep]
      show (hasKey (upsert s.failed m reason) n || r.any (isFailFor n)) = _
      rw [hasKey_upsert]
      by_cases hnm : n = m
      · subst hnm; simp [isFailFor]
      · have e1 : (n == m) = false := by simp [hnm]
        have e2 : (m == n) = false := by simp [Ne.symm hnm]
        simp [isFailFor, e1, e2, Bool.or_assoc]

lemma foldTevs_active (tevs : List TableEv) : ∀ (s : RState) (n : String),
    s.halted = false →
    hasKey (foldTevs s tevs).active n
      = (match lastIsStart n tevs with
         | some b => b
         | none => hasKey s.active n) := by
  induction tevs with
  | nil => intro s n h; simp [foldTevs, lastIsStart]
  | cons e r ih =>
    intro s n h
    rw [foldTevs_cons]
    cases e with
    | tStart m rem =>
      simp only [TableEv.toEv]
      have hstep := stepEv_tStart s m rem h
      have hh : (stepEv s (Ev.tableStarted m rem)).halted = false := by
        rw [hstep]; exact h
      rw [ih _ n hh]
      cases hL : lastIsStart n r with
      | some b => simp [lastIsStart, hL]
      | none =>
        simp only [lastIsStart, hL, TableEv.name, TableEv.isTerminal]
        rw [hstep]
        show hasKey (upsert s.active m rem) n = _
        rw [hasKey_upsert]
        by_cases hnm : n = m
        · subst hnm; simp
        · have e1 : (n == m) = false := by simp [hnm]
          have e2 : (m == n) = false := by simp [Ne.symm hnm]
          simp [e1, e2]
    | tDone m =>
      simp only [TableEv.toEv]
      have hstep := stepEv_tDone s m h
      have hh : (stepEv s (Ev.tableDone m)).halted = false := by
        rw [hstep]; exact h
      rw [ih _ n hh]
      cases hL : lastIsStart n r with
      | some b => simp [lastIsStart, hL]
      | none =>
        simp only [lastIsStart, hL, TableEv.name, TableEv.isTerminal]
        rw [hstep]
        show hasKey (eraseKey s.active m) n = _
        rw [hasKey_eraseKey]
        by_cases hnm : n = m
        · subst hnm; simp
        · have e1 : (n == m) = false := by simp [hnm]
          have e2 : (m == n) = false := by simp [Ne.symm hnm]
          simp [e1, e2]
    | tFail m reason =>
      simp only [TableEv.toEv]
      have hstep := stepEv_tFail s m reason h
      have hh : (stepEv s (Ev.tableFailed m reason)).halted = false := by
        rw [hstep]; exact h
      rw [ih _ n hh]
      cases hL : lastIsStart n r with
      | some b => simp [lastIsStart, hL]
      | none =>
        simp only [lastIsStart, hL, TableEv.name, TableEv.isTerminal]
        rw [hstep]
        show hasKey (eraseKey s.active m) n = _
        rw [hasKey_eraseKey]
        by_cases hnm : n = m
        · subst hnm; simp
        · have e1 : (n == m) = false := by simp [hnm]
          have e2 : (m == n) = false := by simp [Ne.symm hnm]
          simp [e1, e2]

lemma foldTevs_count (tevs : List TableEv) : ∀ (s : RState),
    s.halted = false → s.expectedCount = s.expectedTables.length →
    (foldTevs s tevs).expectedCount = (foldTevs s tevs).expectedTables.length := by
  induction tevs with
  | nil => intro s h hc; simpa [foldTevs] using hc
  | cons e r ih =>
    intro s h hc
    rw [foldTevs_cons]
    cases e with
    | tStart m rem =>
      simp only [TableEv.toEv]
      have hstep := stepEv_tStart s m rem h
      have hh : (stepEv s (Ev.tableStarted m rem)).halted = false := by
        rw [hstep]; exact h
      refine ih _ hh ?_
      rw [hstep]
      show (if s.expectedTables.contains m then s.expectedCount
            else (s.expectedTables ++ [m]).length)
          = (insertSet s.expectedTables m).length
      unfold insertSet
      by_cases hct : m ∈ s.expectedTables
      · simp [hct, hc]
      · simp [hct]
    | tDone m =>
      simp only [TableEv.toEv]
      have hstep := stepEv_tDone s m h
      have hh : (stepEv s (Ev.tableDone m)).halted = false := by
        rw [hstep]; exact h
      exact ih _ hh (by rw [hstep]; exact hc)
    | tFail m reason =>
      simp only [TableEv.toEv]
      have hstep := stepEv_tFail s m reason h
      have hh : (stepEv s (Ev.tableFailed m reason)).halted = false := by
        rw [hstep]; exact h
      exact ih _ hh (by rw [hstep]; exact hc)

/-! ## Lifecycle well-formedness lemmas -/

lemma isDoneFor_facts {n : String} {e : TableEv} (h : isDoneFor n e = true) :
    e.isTerminal = true ∧ e.name = n ∧ isFailFor n e = false := by
  cases e with
  | tDone m =>
    refine ⟨rfl, by simpa [isDoneFor] using h, rfl⟩
  | tStart m rem => simp [isDoneFor] at h
  | tFail m reason => simp [isDoneFor] at h

lemma isFailFor_facts {n : String} {e : TableEv} (h : isFailFor n e = true) :
    e.isTerminal = true ∧ e.name = n ∧ isDoneFor n e = false := by
  cases e with
  | tFail m reason =>
    refine ⟨rfl, by simpa [isFailFor] using h, rfl⟩
  | tStart m rem => simp [isFailFor] at h
  | tDone m => simp [isFailFor] at h

lemma any_eq_false_of_all_ne {n : String} {r : List TableEv}
    (q : TableEv → Bool) (hq : ∀ e, q e = true → e.name = n)
    (h : r.all (fun e2 => e2.name != n) = true) : r.any q = false := by
  rw [List.any_eq_false]
  intro e he hqe
  have h1 := (List.all_eq_true.mp h) e he
  simp [hq e hqe] at h1

lemma lastIsStart_none_iff {n : String} {r : List TableEv} :
    lastIsStart n r = none ↔ ∀ e ∈ r, e.name ≠ n := by
  induction r with
  | nil => simp [lastIsStart]
  | cons e t ih =>
    simp only [lastIsStart]
    cases hL : lastIsStart n t with
    | some b =>
      simp only [hL]
      constructor
      · intro habs; exact absurd habs (by simp)
      · intro hall
        rw [ih.mpr (fun e2 he2 => hall e2 (List.mem_cons_of_mem e he2))] at hL
        exact absurd hL (by simp)
    | none =>
      simp only [hL]
      by_cases hn : e.name = n
      · simp [hn]
      · have : (e.name == n) = false := by simp [hn]
        simp [this, hn, List.mem_cons]
        intro e2 he2
        exact ih.mp hL e2 he2

lemma wfLifecycle_cons {e : TableEv} {r : List TableEv}
    (h : wfLifecycle (e :: r) = true) :
    wfLifecycle r = true ∧
      (e.isTerminal = true → r.all (fun e2 => e2.name != e.name) = true) := by
  simp only [wfLifecycle, Bool.and_eq_true] at h
  refine ⟨h.2, fun ht => ?_⟩
  simpa [ht] using h.1

lemma wf_done_no_fail : ∀ (tevs : List TableEv) (n : String),
    wfLifecycle tevs = true → tevs.any (isDoneFor n) = true →
    tevs.any (isFailFor n) = false := by
  intro tevs
  induction tevs with
  | nil => intro n _ habs; simp at habs
  | cons e r ih =>
    intro n hwf hany
    obtain ⟨hw1, hw2⟩ := wfLifecycle_cons hwf
    rw [List.any_cons] at hany ⊢
    cases hde : isDoneFor n e with
    | true =>
      obtain ⟨hterm, hname, hnf⟩ := isDoneFor_facts hde
      have hall : r.all (fun e2 => e2.name != e.name) = true := hw2 hterm
      rw [hname] at hall
      have : r.any (isFailFor n) = false :=
        any_eq_false_of_all_ne (isFailFor n)
          (fun e2 he2 => (isFailFor_facts he2).2.1) hall
      simp [hnf, this]
    | false =>
      have hrd : r.any (isDoneFor n) = true := by simpa [hde] using hany
      have hrf : r.any (isFailFor n) = false := ih n hw1 hrd
      cases hfe : isFailFor n e with
      | true =>
        obtain ⟨hterm, hname, _⟩ := isFailFor_facts hfe
        have hall : r.all (fun e2 => e2.name != e.name) = true := hw2 hterm
        rw [hname] at hall
        have : r.any (isDoneFor n) = false :=
          any_eq_false_of_all_ne (isDoneFor n)
            (fun e2 he2 => (isDoneFor_facts he2).2.1) hall
        rw [this] at hrd
        exact absurd hrd (by simp)
      | false => simp [hrf]

lemma wf_lastStart_no_term : ∀ (tevs : List TableEv) (n : String),
    wfLifecycle tevs = true → lastIsStart n tevs = some true →
    tevs.any (isDoneFor n) = false ∧ tevs.any (isFailFor n) = false := by
  intro tevs
  induction tevs with
  | nil => intro n _ habs; simp [lastIsStart] at habs
  | cons e r ih =>
    intro n hwf hL
    obtain ⟨hw1, hw2⟩ := wfLifecycle_cons hwf
    simp only [lastIsStart] at hL
    cases hLr : lastIsStart n r with
    | some b =>
      rw [hLr] at hL
      have hb : b = true := by simpa using hL
      subst hb
      obtain ⟨hrd, hrf⟩ := ih n hw1 hLr
      have hmem : ∃ e2 ∈ r, e2.name = n := by
        by_contra habs
        push_neg at habs
        rw [lastIsStart_none_iff.mpr habs] at hLr
        exact absurd hLr (by simp)
      obtain ⟨e2, he2, hname2⟩ := hmem
      constructor
      · rw [List.any_cons, hrd]
        cases hde : isDoneFor n e with
        | false => simp
        | true =>
          obtain ⟨hterm, hname, _⟩ := isDoneFor_facts hde
          have hall := hw2 hterm
          rw [hname] at hall
          have := (List.all_eq_true.mp hall) e2 he2
          simp [hname2] at this
      · rw [List.any_cons, hrf]
        cases hfe : isFailFor n e with
        | false => simp
        | true =>
          obtain ⟨hterm, hname, _⟩ := isFailFor_facts hfe
          have hall := hw2 hterm
          rw [hname] at hall
          have := (List.all_eq_true.mp hall) e2 he2
          simp [hname2] at this
    | none =>
      rw [hLr] at hL
      have hcond : (e.name == n) = true ∧ e.isTerminal = false := by
        by_cases hn : (e.name == n) = true
        · refine ⟨hn, ?_⟩
          rw [if_pos hn] at hL
          have : (!e.isTerminal) = true := by simpa using hL
          simpa using this
        · rw [if_neg hn] at hL
          exact absurd hL (by simp)
      have hnoR : ∀ e2 ∈ r, e2.name ≠ n := lastIsStart_none_iff.mp hLr
      have hrd : r.any (isDoneFor n) = false := by
        rw [List.any_eq_false]
        intro e2 he2 hq
        exact absurd ((isDoneFor_facts hq).2.1) (hnoR e2 he2)
      have hrf : r.any (isFailFor n) = false := by
        rw [List.any_eq_false]
        intro e2 he2 hq
        exact absurd ((isFailFor_facts hq).2.1) (hnoR e2 he2)
      have hde : isDoneFor n e = false := by
        cases hde : isDoneFor n e with
        | false => rfl
        | true =>
          rw [(isDoneFor_facts hde).1] at hcond
          exact absurd hcond.2 (by simp)
      have hfe : isFailFor n e = false := by
        cases hfe : isFailFor n e with
        | false => rfl
        | true =>
          rw [(isFailFor_facts hfe).1] at hcond
          exact absurd hcond.2 (by simp)
      constructor
      · rw [List.any_cons, hde, hrd]; rfl
      · rw [List.any_cons, hfe, hrf]; rfl

lemma doneNames_cons_start {m : String} {rem : Int} {r : List TableEv} :
    doneNames (.tStart m rem :: r) = doneNames r := rfl

lemma doneNames_cons_done {m : String} {r : List TableEv} :
    doneNames (.tDone m :: r) = m :: doneNames r := rfl

lemma doneNames_cons_fail {m reason : String} {r : List TableEv} :
    doneNames (.tFail m reason :: r) = doneNames r := rfl

lemma mem_doneNames {tevs : List TableEv} {n : String} :
    n ∈ doneNames tevs ↔ tevs.any (isDoneFor n) = true := by
  induction tevs with
  | nil => simp [doneNames]
  | cons e r ih =>
    cases e with
    | tStart m rem =>
      rw [doneNames_cons_start, List.any_cons]
      simp [isDoneFor, ih]
    | tDone m =>
      rw [doneNames_cons_done, List.any_cons, List.mem_cons, ih]
      simp only [isDoneFor, Bool.or_eq_true, beq_iff_eq]
      exact or_congr eq_comm Iff.rfl
    | tFail m reason =>
      rw [doneNames_cons_fail, List.any_cons]
      simp [isFailFor, isDoneFor, ih]

/-- C1 (amended): for every sequence of table events in which no table
receives a further event after its first terminal event, each table name is
in at most one of {active, completed, failed} in the resulting reconciler
state (and hence at every snapshot, the hypothesis being closed under
prefixes).  Without that hypothesis the invariant fails: see the
counterexample, where the second terminal arrival inserts the table into a
second collection instead of being a no-op. -/
theorem c1_lifecycle_disjoint (tevs : List TableEv) (n : String)
    (hwf : wfLifecycle tevs = true) :
    ¬(hasKey (processEvents (tevs.map TableEv.toEv)).active n = true ∧
      (processEvents (tevs.map TableEv.toEv)).completed.contains n = true) ∧
    ¬(hasKey (processEvents (tevs.map TableEv.toEv)).active n = true ∧
      hasKey (processEvents (tevs.map TableEv.toEv)).failed n = true) ∧
    ¬((processEvents (tevs.map TableEv.toEv)).completed.contains n = true ∧
      hasKey (processEvents (tevs.map TableEv.toEv)).failed n = true) := by
  have hpe : processEvents (tevs.map TableEv.toEv) = foldTevs initRState tevs :=
    rfl
  have hbasic := foldTevs_basic tevs initRState rfl
  have hcomp := hbasic.2.2.2.2.2.2.1
  have hact := foldTevs_active tevs initRState n rfl
  have hfail := foldTevs_failed tevs initRState n rfl
  rw [hpe]
  -- completed membership is exactly "some table_done for n occurred"
  have hcompIff : (foldTevs initRState tevs).completed.contains n = true ↔
      tevs.any (isDoneFor n) = true := by
    rw [hcomp]
    show (List.foldl insertSet initRState.completed (doneNames tevs)).elem n
        = true ↔ _
    rw [List.elem_iff, mem_foldl_insertSet]
    simp [initRState, mem_doneNames]
  -- failed membership is exactly "some table_failed for n occurred"
  have hfailIff : hasKey (foldTevs initRState tevs).failed n = true ↔
      tevs.any (isFailFor n) = true := by
    rw [hfail]
    simp [initRState, hasKey]
  -- active membership forces the last event for n to be a start
  have hactStart : hasKey (foldTevs initRState tevs).active n = true →
      lastIsStart n tevs = some true := by
    intro hA
    rw [hact] at hA
    cases hL : lastIsStart n tevs with
    | none => rw [hL] at hA; simp [initRState, hasKey] at hA
    | some b => rw [hL] at hA; simp at hA; rw [hA]
  refine ⟨?_, ?_, ?_⟩
  · rintro ⟨hA, hC⟩
    have hdone := hcompIff.mp hC
    have := (wf_lastStart_no_term tevs n hwf (hactStart hA)).1
    rw [this] at hdone
    exact absurd hdone (by simp)
  · rintro ⟨hA, hF⟩
    have hfl := hfailIff.mp hF
    have := (wf_lastStart_no_term tevs n hwf (hactStart hA)).2
    rw [this] at hfl
    exact absurd hfl (by simp)
  · rintro ⟨hC, hF⟩
    have hdone := hcompIff.mp hC
    have hfl := hfailIff.mp hF
    have := wf_done_no_fail tevs n hwf hdone
    rw [this] at hfl
    exact absurd hfl (by simp)

/-- C1 witness: a lifecycle-respecting run (A started and done, B started
and failed) keeps A out of two collections at once. -/
theorem c1_lifecycle_disjoint_witness :
    wfLifecycle [.tStart "A" 1, .tDone "A", .tStart "B" 2,
        .tFail "B" "boom"] = true ∧
    (¬(hasKey (processEvents (([.tStart "A" 1, .tDone "A", .tStart "B" 2,
          .tFail "B" "boom"] : List TableEv).map TableEv.toEv)).active "A"
            = true ∧
       (processEvents (([.tStart "A" 1, .tDone "A", .tStart "B" 2,
          .tFail "B" "boom"] : List TableEv).map
            TableEv.toEv)).completed.contains "A" = true) ∧
     ¬(hasKey (processEvents (([.tStart "A" 1, .tDone "A", .tStart "B" 2,
          .tFail "B" "boom"] : List TableEv).map TableEv.toEv)).active "A"
            = true ∧
       hasKey (processEvents (([.tStart "A" 1, .tDone "A", .tStart "B" 2,
          .tFail "B" "boom"] : List TableEv).map TableEv.toEv)).failed "A"
            = true) ∧
     ¬((processEvents (([.tStart "A" 1, .tDone "A", .tStart "B" 2,
          .tFail "B" "boom"] : List TableEv).map
            TableEv.toEv)).completed.contains "A" = true ∧
       hasKey (processEvents (([.tStart "A" 1, .tDone "A", .tStart "B" 2,
          .tFail "B" "boom"] : List TableEv).map TableEv.toEv)).failed "A"
            = true)) :=
  ⟨by decide,
    c1_lifecycle_disjoint
      [.tStart "A" 1, .tDone "A", .tStart "B" 2, .tFail "B" "boom"] "A"
      (by decide)⟩

lemma stepEv_plan_init (pt : List String) :
    stepEv initRState (.planProposed pt "") =
      { initRState with expectedTables := pt.foldl insertSet [],
                        expectedCount := (pt.foldl insertSet []).length,
                        scopeShown := !pt.isEmpty } := by
  cases pt with
  | nil => simp [stepEv, initRState]
  | cons x t => simp [stepEv, initRState]

lemma wcFlushStep_proj (acc : RState) (p : String × Int) :
    (wcFlushStep acc p).active = eraseKey acc.active p.1 ∧
    (wcFlushStep acc p).completed = insertSet acc.completed p.1 ∧
    (wcFlushStep acc p).streamErr = acc.streamErr ∧
    (wcFlushStep acc p).seedingFailed = acc.seedingFailed := by
  by_cases h : p.1 ∈ acc.expectedTables <;> simp [wcFlushStep, h]

lemma flush_foldl_proj (l : List (String × Int)) :
    ∀ (a : RState),
      (l.foldl wcFlushStep a).active
          = l.foldl (fun act p => eraseKey act p.1) a.active ∧
      (l.foldl wcFlushStep a).completed
          = (l.map Prod.fst).foldl insertSet a.completed ∧
      (l.foldl wcFlushStep a).streamErr = a.streamErr ∧
      (l.foldl wcFlushStep a).seedingFailed = a.seedingFailed := by
  induction l with
  | nil => intro a; exact ⟨rfl, rfl, rfl, rfl⟩
  | cons p t ih =>
    intro a
    obtain ⟨h1, h2, h3, h4⟩ := wcFlushStep_proj a p
    obtain ⟨i1, i2, i3, i4⟩ := ih (wcFlushStep a p)
    refine ⟨?_, ?_, ?_, ?_⟩
    · rw [List.foldl_cons, i1, h1]
      rfl
    · rw [List.foldl_cons, i2, h2, List.map_cons, List.foldl_cons]
    · rw [List.foldl_cons, i3, h3]
    · rw [List.foldl_cons, i4, h4]

lemma foldl_eraseKey_filter (l : List (String × Int)) :
    ∀ (m : List (String × Int)),
      l.foldl (fun act p => eraseKey act p.1) m
        = m.filter (fun q => l.all (fun p => q.1 != p.1)) := by
  induction l with
  | nil => intro m; simp
  | cons p t ih =>
    intro m
    rw [List.foldl_cons, ih]
    show (eraseKey m p.1).filter _ = _
    unfold eraseKey
    rw [List.filter_filter]
    apply List.filter_congr
    intro q _
    rw [List.all_cons]
    exact Bool.and_comm _ _

lemma flush_active_nil (s : RState) :
    (s.active.foldl wcFlushStep s).active = [] := by
  rw [(flush_foldl_proj s.active s).1, foldl_eraseKey_filter]
  rw [List.filter_eq_nil_iff]
  intro a ha hall
  rw [List.all_eq_true] at hall
  have := hall a ha
  simp at this

/-- C2 (amended): the final classification over a plan, table events and a
terminal event is: failure when any table failed; otherwise, when the
terminal event is `workflow_completed`, success — with every still-active
table force-moved into `completed` first (the active set empties into the
completed set); when the terminal event is `stream_closed`: success when no
table completed (the close is still reported as a completion); otherwise
success exactly when no tables were expected or the completed count equals
the expected count, and partial (incomplete) otherwise.  The scenario of
the claim — three tables started, A and B done, stream closed — is
classified partial, not success. -/
theorem c2_classification (planTables : List String) (tevs : List TableEv) :
    (classifyOutcome (processEvents (Ev.planProposed planTables "" ::
        (tevs.map TableEv.toEv ++ [Ev.streamClosed]))) =
      (if anyFailed tevs then Outcome.failure
       else if (doneNames tevs).isEmpty then Outcome.success
       else if expectedCountOf planTables tevs == 0 ||
           completedCountOf tevs == expectedCountOf planTables tevs then
         Outcome.success
       else Outcome.incomplete)) ∧
    classifyOutcome (processEvents c2scenario) = Outcome.incomplete ∧
    (classifyOutcome (processEvents (Ev.planProposed planTables "" ::
        (tevs.map TableEv.toEv ++ [Ev.workflowCompleted]))) =
      (if anyFailed tevs then Outcome.failure else Outcome.success)) ∧
    (processEvents (Ev.planProposed planTables "" ::
        (tevs.map TableEv.toEv ++ [Ev.workflowCompleted]))).active = [] ∧
    ((foldTevs (stepEv initRState (Ev.planProposed planTables ""))
        tevs).active.map Prod.fst).all (fun n =>
      (processEvents (Ev.planProposed planTables "" ::
        (tevs.map TableEv.toEv ++
          [Ev.workflowCompleted]))).completed.contains n) = true := by
  have h0 : processEvents (Ev.planProposed planTables "" ::
        (tevs.map TableEv.toEv ++ [Ev.streamClosed]))
      = stepEv (foldTevs (stepEv initRState (.planProposed planTables ""))
          tevs) Ev.streamClosed := by
    simp [processEvents, foldTevs, List.foldl_append]
  have h0w : processEvents (Ev.planProposed planTables "" ::
        (tevs.map TableEv.toEv ++ [Ev.workflowCompleted]))
      = stepEv (foldTevs (stepEv initRState (.planProposed planTables ""))
          tevs) Ev.workflowCompleted := by
    simp [processEvents, foldTevs, List.foldl_append]
  rw [h0, h0w, stepEv_plan_init planTables]
  set s1 : RState :=
    { initRState with expectedTables := planTables.foldl insertSet [],
                      expectedCount := (planTables.foldl insertSet []).length,
                      scopeShown := !planTables.isEmpty } with hs1
  obtain ⟨hH, hSE, hSC, hWC, hSF, hDT, hCP, hET⟩ := foldTevs_basic tevs s1 rfl
  have hcount := foldTevs_count tevs s1 rfl rfl
  have hstepc : stepEv (foldTevs s1 tevs) Ev.streamClosed =
      { foldTevs s1 tevs with streamClosed := true, halted := true } := by
    simp [stepEv, hH]
  have hstepw : stepEv (foldTevs s1 tevs) Ev.workflowCompleted =
      { (foldTevs s1 tevs).active.foldl wcFlushStep (foldTevs s1 tevs) with
          workflowCompleted := true, halted := true } := by
    simp [stepEv, hH]
  obtain ⟨fA, fC, fSE, fSF⟩ :=
    flush_foldl_proj (foldTevs s1 tevs).active (foldTevs s1 tevs)
  refine ⟨?_, by decide, ?_, ?_, ?_⟩
  case refine_2 =>
    rw [hstepw]
    have wSE : ({ (foldTevs s1 tevs).active.foldl wcFlushStep
        (foldTevs s1 tevs) with workflowCompleted := true, halted := true }
          : RState).streamErr = none := by
      show ((foldTevs s1 tevs).active.foldl wcFlushStep
        (foldTevs s1 tevs)).streamErr = none
      rw [fSE, hSE]
      simp [hs1, initRState]
    have wSF : ({ (foldTevs s1 tevs).active.foldl wcFlushStep
        (foldTevs s1 tevs) with workflowCompleted := true, halted := true }
          : RState).seedingFailed = anyFailed tevs := by
      show ((foldTevs s1 tevs).active.foldl wcFlushStep
        (foldTevs s1 tevs)).seedingFailed = anyFailed tevs
      rw [fSF, hSF]
      simp [hs1, initRState]
    unfold classifyOutcome
    rw [wSE, wSF]
    cases hf : anyFailed tevs <;> simp [hf]
  case refine_3 =>
    rw [hstepw]
    show ((foldTevs s1 tevs).active.foldl wcFlushStep
      (foldTevs s1 tevs)).active = []
    exact flush_active_nil (foldTevs s1 tevs)
  case refine_4 =>
    rw [hstepw]
    rw [List.all_eq_true]
    intro n hn
    show (((foldTevs s1 tevs).active.foldl wcFlushStep
      (foldTevs s1 tevs)).completed.contains n) = true
    rw [fC]
    exact List.elem_iff.mpr
      ((mem_foldl_insertSet ((foldTevs s1 tevs).active.map Prod.fst)
        (foldTevs s1 tevs).completed n).mpr (Or.inr hn))
  rw [hstepc]
  have hSE2 : ({ foldTevs s1 tevs with streamClosed := true, halted := true } : RState).streamErr = none := by
    show (foldTevs s1 tevs).streamErr = none
    rw [hSE]
    simp [hs1, initRState]
  have hSF2 : ({ foldTevs s1 tevs with streamClosed := true, halted := true } : RState).seedingFailed = anyFailed tevs := by
    show (foldTevs s1 tevs).seedingFailed = anyFailed tevs
    rw [hSF]
    simp [hs1, initRState]
  have hWC2 : ({ foldTevs s1 tevs with streamClosed := true, halted := true } : RState).workflowCompleted = false := by
    show (foldTevs s1 tevs).workflowCompleted = false
    rw [hWC]
    simp [hs1, initRState]
  have hDT2 : ({ foldTevs s1 tevs with streamClosed := true, halted := true } : RState).doneTables = doneNames tevs := by
    show (foldTevs s1 tevs).doneTables = doneNames tevs
    rw [hDT]
    simp [hs1, initRState]
  have hCP2 : ({ foldTevs s1 tevs with streamClosed := true, halted := true } : RState).completed.length = completedCountOf tevs := by
    show (foldTevs s1 tevs).completed.length = completedCountOf tevs
    rw [hCP]
    simp [hs1, initRState, completedCountOf]
  have hEC2 : ({ foldTevs s1 tevs with streamClosed := true, halted := true } : RState).expectedCount = expectedCountOf planTables tevs := by
    show (foldTevs s1 tevs).expectedCount = expectedCountOf planTables tevs
    rw [hcount, hET]
    simp [hs1, initRState, expectedCountOf]
  unfold classifyOutcome
  rw [hSE2, hSF2, hWC2, hDT2, hCP2, hEC2]
  cases hf : anyFailed tevs <;> cases hd : (doneNames tevs).isEmpty <;>
    cases hcond : (expectedCountOf planTables tevs == 0 ||
        completedCountOf tevs == expectedCountOf planTables tevs) <;>
      simp [hf, hd, hcond]

/-! ## Scanner lemmas for the id-removal proof -/

lemma munch_append (p : Char → Bool) (a b : List Char)
    (ha : a.all p = true)
    (hb : ∀ c, b.head? = some c → p c = false) :
    munch p (a ++ b) = (a, b) := by
  induction a with
  | nil =>
    cases b with
    | nil => rfl
    | cons c bt =>
      have := hb c rfl
      simp [munch, this]
  | cons c at2 ih =>
    rw [List.all_cons, Bool.and_eq_true] at ha
    simp [munch, ha.1, ih ha.2]

lemma stripCI_values (r : List Char) :
    stripCI ['v', 'a', 'l', 'u', 'e', 's']
      ('V' :: 'A' :: 'L' :: 'U' :: 'E' :: 'S' :: r) = some r := rfl

lemma stripCI_insert (r : List Char) :
    stripCI ['i', 'n', 's', 'e', 'r', 't']
      ('I' :: 'N' :: 'S' :: 'E' :: 'R' :: 'T' :: r) = some r := rfl

lemma stripCI_into (r : List Char) :
    stripCI ['i', 'n', 't', 'o'] ('I' :: 'N' :: 'T' :: 'O' :: r) = some r := rfl

lemma tryValuesClause_at (V B : List Char) (hVne : V ≠ [])
    (hV : V.all (fun c => c != ')') = true) :
    tryValuesClause
      ('V' :: 'A' :: 'L' :: 'U' :: 'E' :: 'S' :: ' ' :: '(' :: (V ++ ')' :: B))
      = some (V, B) := by
  cases V with
  | nil => exact absurd rfl hVne
  | cons v0 V2 =>
    have h2 : munch (fun c => c != ')') ((v0 :: V2) ++ ')' :: B)
        = (v0 :: V2, ')' :: B) :=
      munch_append _ (v0 :: V2) (')' :: B) hV (fun c hc => by
        simp at hc; rw [← hc]; rfl)
    unfold tryValuesClause
    simp only [stripCI_values]
    have h1 : munch reSpace (' ' :: '(' :: ((v0 :: V2) ++ ')' :: B))
        = ([' '], '(' :: ((v0 :: V2) ++ ')' :: B)) := rfl
    simp only [h1, h2]

lemma tryInsertHead_at (t C rest : List Char)
    (ht : goodTableTok t = true)
    (hCne : C ≠ []) (hC : C.all (fun c => c != ')') = true) :
    tryInsertHead ('I' :: 'N' :: 'S' :: 'E' :: 'R' :: 'T' :: ' ' :: 'I' :: 'N'
        :: 'T' :: 'O' :: ' ' :: (t ++ ' ' :: '(' :: (C ++ ')' :: rest)))
      = some (t, C, rest) := by
  rw [goodTableTok, Bool.and_eq_true] at ht
  obtain ⟨htne, htcl⟩ := ht
  have htne2 : t ≠ [] := by
    cases t with
    | nil => simp at htne
    | cons a b => simp
  cases t with
  | nil => exact absurd rfl htne2
  | cons t0 t2 =>
  cases C with
  | nil => exact absurd rfl hCne
  | cons c0 C2 =>
    have hsp : reSpace t0 = false := by
      have := (List.all_eq_true.mp htcl) t0 (by simp)
      simp [Bool.and_eq_true] at this
      simpa using this.1
    have h2 : munch reSpace (' ' :: ((t0 :: t2) ++ ' ' :: '('
        :: ((c0 :: C2) ++ ')' :: rest)))
        = ([' '], (t0 :: t2) ++ ' ' :: '(' :: ((c0 :: C2) ++ ')' :: rest)) := by
      have := munch_append reSpace [' ']
        ((t0 :: t2) ++ ' ' :: '(' :: ((c0 :: C2) ++ ')' :: rest)) (by decide)
        (fun c hc => by simp at hc; rw [← hc]; exact hsp)
      simpa using this
    have h3 : munch (fun c => !(reSpace c) && c != '(')
        ((t0 :: t2) ++ ' ' :: '(' :: ((c0 :: C2) ++ ')' :: rest))
        = (t0 :: t2, ' ' :: '(' :: ((c0 :: C2) ++ ')' :: rest)) :=
      munch_append _ (t0 :: t2) _ htcl
        (fun c hc => by simp at hc; rw [← hc]; rfl)
    have h4 : munch reSpace (' ' :: '(' :: ((c0 :: C2) ++ ')' :: rest))
        = ([' '], '(' :: ((c0 :: C2) ++ ')' :: rest)) := rfl
    have h5 : munch (fun c => c != ')') ((c0 :: C2) ++ ')' :: rest)
        = (c0 :: C2, ')' :: rest) :=
      munch_append _ (c0 :: C2) _ hC
        (fun c hc => by simp at hc; rw [← hc]; rfl)
    unfold tryInsertHead
    simp only [stripCI_insert]
    have h1 : munch reSpace (' ' :: 'I' :: 'N' :: 'T' :: 'O' :: ' '
        :: ((t0 :: t2) ++ ' ' :: '(' :: ((c0 :: C2) ++ ')' :: rest)))
        = ([' '], 'I' :: 'N' :: 'T' :: 'O' :: ' '
            :: ((t0 :: t2) ++ ' ' :: '(' :: ((c0 :: C2) ++ ')' :: rest))) := rfl
    simp only [h1, stripCI_into, h2, h3, h4, h5]

lemma tryInsertHeadValues_at (t C rest : List Char)
    (ht : goodTableTok t = true)
    (hCne : C ≠ []) (hC : C.all (fun c => c != ')') = true) :
    tryInsertHeadValues ('I' :: 'N' :: 'S' :: 'E' :: 'R' :: 'T' :: ' ' :: 'I'
        :: 'N' :: 'T' :: 'O' :: ' ' :: (t ++ ' ' :: '(' :: (C ++ ')' :: ' '
        :: 'V' :: 'A' :: 'L' :: 'U' :: 'E' :: 'S' :: rest)))
      = some (t, C, rest) := by
  unfold tryInsertHeadValues
  have h1 : munch reSpace (' ' :: 'V' :: 'A' :: 'L' :: 'U' :: 'E' :: 'S'
      :: rest) = ([' '], 'V' :: 'A' :: 'L' :: 'U' :: 'E' :: 'S' :: rest) := rfl
  simp only [tryInsertHead_at t C
    (' ' :: 'V' :: 'A' :: 'L' :: 'U' :: 'E' :: 'S' :: rest) ht hCne hC,
    h1, stripCI_values]

lemma findFrom_zero {α : Type} (f : List Char → Option α) (s : List Char)
    (r : α) (h : f s = some r) : findFrom f s = some (0, r) := by
  cases s with
  | nil => simp [findFrom, h]
  | cons c tl => simp [findFrom, h]

lemma noMatchIn_cons {α : Type} {f : List Char → Option α} {c : Char}
    {A B : List Char} (h : noMatchIn f (c :: A) B = true) :
    (f (c :: A ++ B)).isNone = true ∧ noMatchIn f A B = true := by
  rw [noMatchIn] at h
  rw [show (c :: A).length = A.length + 1 from rfl,
    List.range_succ_eq_map, List.all_cons, Bool.and_eq_true] at h
  refine ⟨by simpa using h.1, ?_⟩
  rw [noMatchIn]
  rw [List.all_map] at h
  exact h.2

lemma findFrom_split {α : Type} (f : List Char → Option α) (A B : List Char)
    (r : α) (hA : noMatchIn f A B = true) (hB : f B = some r) :
    findFrom f (A ++ B) = some (A.length, r) := by
  induction A with
  | nil => simpa using findFrom_zero f B r hB
  | cons c A2 ih =>
    obtain ⟨h0, hrest⟩ := noMatchIn_cons hA
    have h0e : f (c :: A2 ++ B) = none := by
      cases hf : f (c :: A2 ++ B) with
      | none => rfl
      | some v => rw [hf] at h0; simp at h0
    show findFrom f (c :: (A2 ++ B)) = _
    rw [findFrom]
    rw [show c :: A2 ++ B = c :: (A2 ++ B) from rfl] at h0e
    rw [h0e, ih hrest]
    rfl

lemma expandFuel_noDollar (gs : List (List Char)) :
    ∀ (fuel : Nat) (s : List Char), s.all (fun c => c != '$') = true →
      expandFuel gs fuel s = s := by
  intro fuel
  induction fuel with
  | zero => intro s _; rfl
  | succ n ih =>
    intro s h
    cases s with
    | nil => rfl
    | cons c rest =>
      rw [List.all_cons, Bool.and_eq_true] at h
      have hc : (c == '$') = false := by
        have := h.1
        cases hb : c == '$'
        · rfl
        · rw [bne, hb] at this; simp at this
      show (if c == '$' then _ else c :: expandFuel gs n rest) = c :: rest
      rw [hc]
      simp only [Bool.false_eq_true, if_false]
      rw [ih rest h.2]

lemma expandTemplate_noDollar (gs : List (List Char)) (tmpl : List Char)
    (h : tmpl.all (fun c => c != '$') = true) :
    expandTemplate gs tmpl = tmpl :=
  expandFuel_noDollar gs (tmpl.length + 1) tmpl h

lemma replaceAll_id {β : Type} (f : List Char → Option (β × List Char))
    (gsOf : β → List (List Char)) (tmpl : List Char) :
    ∀ (s : List Char) (fuel : Nat), noMatchIn f s [] = true →
      (f []).isNone = true → replaceAllFuel f gsOf tmpl fuel s = s := by
  intro s
  induction s with
  | nil =>
    intro fuel _ hnil
    cases fuel with
    | zero => rfl
    | succ n =>
      have : f [] = none := by
        cases hf : f [] with
        | none => rfl
        | some v => rw [hf] at hnil; simp at hnil
      simp [replaceAllFuel, this]
  | cons c tl ih =>
    intro fuel hs hnil
    obtain ⟨h0, hrest⟩ := noMatchIn_cons (by simpa using hs)
    have h0e : f (c :: tl) = none := by
      cases hf : f (c :: tl) with
      | none => rfl
      | some v =>
        rw [show c :: tl ++ [] = c :: tl by simp, hf] at h0
        simp at h0
    cases fuel with
    | zero => rfl
    | succ n =>
      simp only [replaceAllFuel, h0e]
      rw [ih n (by simpa using hrest) hnil]

lemma replaceAll_split {β : Type} (f : List Char → Option (β × List Char))
    (gsOf : β → List (List Char)) (tmpl : List Char) :
    ∀ (A MB B : List Char) (cap : β) (fuel : Nat),
      noMatchIn f A MB = true → f MB = some (cap, B) →
      noMatchIn f B [] = true → (f []).isNone = true →
      A.length + 1 ≤ fuel →
      replaceAllFuel f gsOf tmpl fuel (A ++ MB)
        = A ++ expandTemplate (MB.take (MB.length - B.length) :: gsOf cap)
            tmpl ++ B := by
  intro A
  induction A with
  | nil =>
    intro MB B cap fuel _ hMB hB hnil hfuel
    cases fuel with
    | zero => omega
    | succ n =>
      simp only [List.nil_append, replaceAllFuel, hMB]
      rw [replaceAll_id f gsOf tmpl B n hB hnil]
  | cons c A2 ih =>
    intro MB B cap fuel hA hMB hB hnil hfuel
    obtain ⟨h0, hrest⟩ := noMatchIn_cons hA
    have h0e : f (c :: (A2 ++ MB)) = none := by
      cases hf : f (c :: (A2 ++ MB)) with
      | none => rfl
      | some v =>
        rw [show c :: A2 ++ MB = c :: (A2 ++ MB) from rfl, hf] at h0
        simp at h0
    cases fuel with
    | zero => omega
    | succ n =>
      show replaceAllFuel f gsOf tmpl (n + 1) (c :: (A2 ++ MB)) = _
      simp only [replaceAllFuel, h0e]
      rw [ih MB B cap n hrest hMB hB hnil (by simp at hfuel; omega)]
      simp

/-! ## Split / join / trim round-trip lemmas -/

lemma splitOnComma_append (a b : List Char) (h : List Char)
    (t2 : List (List Char)) (hh : splitOnComma b = h :: t2)
    (ha : a.all (fun c => c != ',') = true) :
    splitOnComma (a ++ b) = (a ++ h) :: t2 := by
  induction a with
  | nil => simpa using hh
  | cons c a2 ih =>
    rw [List.all_cons, Bool.and_eq_true] at ha
    have hc : (c == ',') = false := by simpa using ha.1
    show splitOnComma (c :: (a2 ++ b)) = _
    rw [splitOnComma]
    simp only [hc, Bool.false_eq_true, if_false]
    rw [ih ha.2]
    rfl

lemma splitOnComma_join (x : List Char) (t : List (List Char))
    (hx : x.all (fun c => c != ',') = true)
    (ht : t.all (fun y => y.all (fun c => c != ',')) = true) :
    splitOnComma (joinCommaSpace (x :: t)) = x :: t.map (fun y => ' ' :: y) := by
  induction t generalizing x with
  | nil =>
    have : splitOnComma (x ++ []) = (x ++ []) :: [] :=
      splitOnComma_append x [] [] [] rfl hx
    simpa [joinCommaSpace] using this
  | cons y t2 ih =>
    rw [List.all_cons, Bool.and_eq_true] at ht
    have hinner := ih y ht.1 ht.2
    have hsp : splitOnComma (' ' :: joinCommaSpace (y :: t2))
        = (' ' :: y) :: t2.map (fun y2 => ' ' :: y2) := by
      rw [splitOnComma]
      simp only [show (' ' == ',') = false from rfl, Bool.false_eq_true,
        if_false, hinner]
    have hb : splitOnComma (',' :: ' ' :: joinCommaSpace (y :: t2))
        = [] :: (' ' :: y) :: t2.map (fun y2 => ' ' :: y2) := by
      rw [splitOnComma]
      simp [hsp]
    have hj : joinCommaSpace (x :: y :: t2)
        = x ++ (',' :: ' ' :: joinCommaSpace (y :: t2)) := by
      show x ++ [',', ' '] ++ joinCommaSpace (y :: t2) = _
      rw [List.append_assoc]
      rfl
    rw [hj, splitOnComma_append x _ _ _ hb hx]
    simp

lemma trimSpace_cons_space (l : List Char) :
    trimSpace (' ' :: l) = trimSpace l := by
  unfold trimSpace
  rw [List.dropWhile_cons_of_pos (by decide)]

lemma goodTok_facts {x : List Char} (h : goodTok x = true) :
    x ≠ [] ∧ x.all (fun c => c != ',' && c != ')') = true ∧ trimSpace x = x := by
  rw [goodTok, Bool.and_eq_true, Bool.and_eq_true] at h
  refine ⟨?_, h.1.2, ?_⟩
  · cases x with
    | nil => simp at h
    | cons a b => simp
  · exact eq_of_beq h.2

lemma parseColumnList_join (xs : List (List Char))
    (h : xs.all goodTok = true) :
    parseColumnList (joinCommaSpace xs) = xs := by
  cases xs with
  | nil => rfl
  | cons x t =>
    rw [List.all_cons, Bool.and_eq_true] at h
    obtain ⟨hxf, hne, htr⟩ :=
      And.intro (goodTok_facts h.1).1
        (And.intro (goodTok_facts h.1).2.2 h.2)
    have hxnc : x.all (fun c => c != ',') = true := by
      have := (goodTok_facts h.1).2.1
      rw [List.all_eq_true] at this ⊢
      intro c hc
      have := this c hc
      rw [Bool.and_eq_true] at this
      exact this.1
    have htnc : t.all (fun y => y.all (fun c => c != ',')) = true := by
      rw [List.all_eq_true] at htr ⊢
      intro y hy
      have := goodTok_facts (htr y hy)
      rw [List.all_eq_true]
      intro c hc
      have h2 := this.2.1
      rw [List.all_eq_true] at h2
      have := h2 c hc
      rw [Bool.and_eq_true] at this
      exact this.1
    rw [parseColumnList, splitOnComma_join x t hxnc htnc]
    rw [List.map_cons, hne]
    have hmap : (t.map (fun y => ' ' :: y)).map trimSpace = t := by
      rw [List.map_map]
      have : ∀ y ∈ t, (trimSpace ∘ fun y2 => ' ' :: y2) y = y := by
        intro y hy
        show trimSpace (' ' :: y) = y
        rw [trimSpace_cons_space]
        rw [List.all_eq_true] at htr
        exact (goodTok_facts (htr y hy)).2.2
      calc (t.map (trimSpace ∘ fun y2 => ' ' :: y2))
          = t.map id := List.map_congr_left this
        _ = t := List.map_id t
    rw [hmap]
    rw [List.filter_cons]
    have hxe : (!x.isEmpty) = true := by
      cases x with
      | nil => exact absurd rfl hxf
      | cons a b => rfl
    rw [if_pos hxe]
    congr 1
    rw [List.filter_eq_self]
    intro y hy
    rw [List.all_eq_true] at htr
    have := (goodTok_facts (htr y hy)).1
    cases y with
    | nil => exact absurd rfl this
    | cons a b => rfl

lemma all_imp {p q : Char → Bool} (l : List Char)
    (h : l.all p = true) (himp : ∀ c, p c = true → q c = true) :
    l.all q = true := by
  rw [List.all_eq_true] at h ⊢
  intro c hc
  exact himp c (h c hc)

lemma all_joinCommaSpace (p : Char → Bool) (xs : List (List Char))
    (hxs : xs.all (fun x => x.all p) = true)
    (hc : p ',' = true) (hs : p ' ' = true) :
    (joinCommaSpace xs).all p = true := by
  induction xs with
  | nil => rfl
  | cons x t ih =>
    rw [List.all_cons, Bool.and_eq_true] at hxs
    cases t with
    | nil => simpa [joinCommaSpace] using hxs.1
    | cons y t2 =>
      show ((x ++ [',', ' '] ++ joinCommaSpace (y :: t2)).all p) = true
      rw [List.all_append, List.all_append, Bool.and_eq_true, Bool.and_eq_true]
      exact ⟨⟨hxs.1, by simp [hc, hs]⟩, ih hxs.2⟩

lemma joinCommaSpace_ne_nil {x : List Char} {t : List (List Char)}
    (hx : x ≠ []) : joinCommaSpace (x :: t) ≠ [] := by
  cases t with
  | nil => simpa [joinCommaSpace] using hx
  | cons y t2 =>
    show x ++ [',', ' '] ++ joinCommaSpace (y :: t2) ≠ []
    simp [hx]

lemma findIdxP_facts (p : List Char → Bool) : ∀ (l : List (List Char)) (i : Nat),
    findIdxP p l = some i → i < l.length ∧ l.any p = true := by
  intro l
  induction l with
  | nil => intro i h; simp [findIdxP] at h
  | cons c r ih =>
    intro i h
    rw [findIdxP] at h
    by_cases hp : p c = true
    · rw [if_pos hp] at h
      have : i = 0 := by simpa using h.symm
      subst this
      simp [hp]
    · rw [if_neg hp] at h
      cases hr : findIdxP p r with
      | none => rw [hr] at h; simp at h
      | some j =>
        rw [hr] at h
        have hij : i = j + 1 := by simpa using h.symm
        subst hij
        obtain ⟨h1, h2⟩ := ih j hr
        constructor
        · simpa using h1
        · simp [h2]

lemma foldl_enumFixStep_nil (vs : Int) :
    ∀ (l : List (Nat × List Char)) (acc : List Char),
      l.foldl (enumFixStep [] vs) acc = acc := by
  intro l
  induction l with
  | nil => intro acc; rfl
  | cons p r ih =>
    intro acc
    rw [List.foldl_cons]
    rw [show enumFixStep [] vs acc p = acc from rfl]
    exact ih acc

/-- C3 counterexample to the unamended claim: on
`INSERT INTO users (id, a) VALUES (1, $1)` — a dollar placeholder as a
value — the repair removes the `id` column but not its positional value:
`ReplaceAllString` treats the replacement `VALUES ($1)` as a `$`-template,
and `$1` re-expands to the captured original value list, so the result is
`INSERT INTO users (a) VALUES (1, $1)`: one fewer column, but still two
values (second conjunct), not the one-fewer-value statement the claim
demands (third conjunct). -/
theorem c3_counterexample :
    fixSeedingSQL c3getInfo
        (renderInsert ['u', 's', 'e', 'r', 's'] [['i', 'd'], ['a']]
          [['1'], ['$', '1']])
      = (renderInsert ['u', 's', 'e', 'r', 's'] [['a']] [['1'], ['$', '1']],
          none) ∧
    (match findFrom tryValuesClause
        (fixSeedingSQL c3getInfo
          (renderInsert ['u', 's', 'e', 'r', 's'] [['i', 'd'], ['a']]
            [['1'], ['$', '1']])).1 with
      | some (_, v, _) => (parseColumnList v).length
      | none => 0) = 2 ∧
    fixSeedingSQL c3getInfo
        (renderInsert ['u', 's', 'e', 'r', 's'] [['i', 'd'], ['a']]
          [['1'], ['$', '1']])
      ≠ (renderInsert ['u', 's', 'e', 'r', 's'] [['a']] [['$', '1']],
          none) := by
  refine ⟨by decide, by decide, by decide⟩

/-- C3 (amended): repairing a well-formed single-row INSERT whose column
list contains an `id` column, against a table whose sole primary key `id`
is sequence-backed, removes exactly the `id` column and its positional
value — provided no token contains a `$` character: the rebuild goes
through `ReplaceAllString`, whose replacement is a `$`-template, so a `$`
inside a value or column re-expands match groups (see the counterexample).
The result is the same statement re-rendered without the `id` parts, with
one fewer column and one fewer value.  The two `noMatchIn` hypotheses state
that the statement does not mimic the `VALUES (`/`INSERT INTO` patterns
away from their real occurrences (the regex parsing is best-effort; the
spec scopes it to this unambiguous shape). -/
theorem c3_id_removal
    (t : List Char) (cols vals : List (List Char)) (i : Nat)
    (info : SchemaInfo) (pk : List Char)
    (getInfo : List Char → Option SchemaInfo)
    (ht : goodTableTok t = true)
    (hc : cols.all goodTok = true)
    (hv : vals.all goodTok = true)
    (hDt : t.all (fun c => c != '$') = true)
    (hDc : cols.all (fun x => x.all (fun c => c != '$')) = true)
    (hDv : vals.all (fun x => x.all (fun c => c != '$')) = true)
    (hlen : cols.length = vals.length)
    (hid : findIdxP (fun c => lowerStr c == ['i', 'd']) cols = some i)
    (hg : getInfo t = some info)
    (hpk : info.primaryKeyCols = [pk])
    (hpkid : lowerStr pk = ['i', 'd'])
    (hauto : lookupA info.autoIncrement pk = some true)
    (henum : info.enumValues = [])
    (hNoVal : noMatchIn tryValuesClause (headPrefix t cols)
        (valuesTail vals) = true)
    (hNoIns : noMatchIn tryInsertHeadR
        (' ' :: valuesTail (vals.eraseIdx i)) [] = true) :
    fixSeedingSQL getInfo (renderInsert t cols vals)
      = (renderInsert t (cols.eraseIdx i) (vals.eraseIdx i), none) ∧
    (cols.eraseIdx i).length + 1 = cols.length ∧
    (vals.eraseIdx i).length + 1 = vals.length := by
  have hifacts := findIdxP_facts _ cols i hid
  have hiLt : i < cols.length := hifacts.1
  have hAny : cols.any (fun c => lowerStr c == ['i', 'd']) = true := hifacts.2
  have hiv : i < vals.length := by omega
  have htokNoParen : ∀ (xs : List (List Char)), xs.all goodTok = true →
      (joinCommaSpace xs).all (fun c2 => c2 != ')') = true := by
    intro xs hxs
    apply all_joinCommaSpace
    · rw [List.all_eq_true] at hxs ⊢
      intro x hx
      exact all_imp x (goodTok_facts (hxs x hx)).2.1
        (fun c2 hc2 => by rw [Bool.and_eq_true] at hc2; exact hc2.2)
    · rfl
    · rfl
  have hCall := htokNoParen cols hc
  have hVall := htokNoParen vals hv
  have hjoinNe : ∀ (xs : List (List Char)), xs ≠ [] → xs.all goodTok = true →
      joinCommaSpace xs ≠ [] := by
    intro xs hne hxs
    cases xs with
    | nil => exact absurd rfl hne
    | cons x t2 =>
      rw [List.all_cons, Bool.and_eq_true] at hxs
      exact joinCommaSpace_ne_nil (goodTok_facts hxs.1).1
  have hColsNe : cols ≠ [] := by
    intro habs; rw [habs] at hiLt; simp at hiLt
  have hValsNe : vals ≠ [] := by
    intro habs; rw [habs] at hiv; simp at hiv
  have hCne := hjoinNe cols hColsNe hc
  have hVne := hjoinNe vals hValsNe hv
  -- the replacement templates contain no dollar sign, so the Go template
  -- expansion leaves them verbatim
  have hsubDc : (cols.eraseIdx i).all (fun x => x.all (fun c => c != '$'))
      = true := by
    rw [List.all_eq_true] at hDc ⊢
    intro x hx
    exact hDc x ((List.eraseIdx_sublist cols i).subset hx)
  have hsubDv : (vals.eraseIdx i).all (fun x => x.all (fun c => c != '$'))
      = true := by
    rw [List.all_eq_true] at hDv ⊢
    intro x hx
    exact hDv x ((List.eraseIdx_sublist vals i).subset hx)
  have hND1 : (['V', 'A', 'L', 'U', 'E', 'S', ' ', '('] ++
      joinCommaSpace (vals.eraseIdx i) ++ [')']).all (fun c => c != '$')
      = true := by
    rw [List.all_append, List.all_append, Bool.and_eq_true, Bool.and_eq_true]
    exact ⟨⟨by decide, all_joinCommaSpace _ _ hsubDv (by decide) (by decide)⟩,
      by decide⟩
  have hND2 : (['I', 'N', 'S', 'E', 'R', 'T', ' ', 'I', 'N', 'T', 'O', ' ']
      ++ t ++ [' ', '('] ++ joinCommaSpace (cols.eraseIdx i) ++ [')']).all
      (fun c => c != '$') = true := by
    rw [List.all_append, List.all_append, List.all_append, List.all_append,
      Bool.and_eq_true, Bool.and_eq_true, Bool.and_eq_true, Bool.and_eq_true]
    exact ⟨⟨⟨⟨by decide, hDt⟩, by decide⟩,
      all_joinCommaSpace _ _ hsubDc (by decide) (by decide)⟩, by decide⟩
  -- shape of the rendered statement for the head-with-VALUES matcher
  have hshapeHV : renderInsert t cols vals
      = 'I' :: 'N' :: 'S' :: 'E' :: 'R' :: 'T' :: ' ' :: 'I' :: 'N' :: 'T'
        :: 'O' :: ' ' :: (t ++ ' ' :: '(' :: (joinCommaSpace cols ++ ')'
        :: ' ' :: 'V' :: 'A' :: 'L' :: 'U' :: 'E' :: 'S'
        :: (' ' :: '(' :: (joinCommaSpace vals ++ [')'])))) := by
    simp [renderInsert, headPrefix, valuesTail, insertIntoLit]
  have hfindHV : findFrom tryInsertHeadValues (renderInsert t cols vals)
      = some (0, (t, joinCommaSpace cols,
          ' ' :: '(' :: (joinCommaSpace vals ++ [')']))) := by
    rw [hshapeHV]
    exact findFrom_zero _ _ _
      (tryInsertHeadValues_at t (joinCommaSpace cols) _ ht hCne hCall)
  set psv : Int := (match findFrom tryWsValuesOpen (renderInsert t cols vals)
      with
    | some (k, _) => (k : Int)
    | none => -1) with hpsv
  have hparse : parseInsertStatement (renderInsert t cols vals)
      = (t, cols, psv, true) := by
    unfold parseInsertStatement
    simp only [hfindHV]
    rw [parseColumnList_join cols hc]
    simp only [hAny, hpsv]
  -- evaluation of removeIdColumnAndValue on the rendered statement
  have hVtail : valuesTail vals
      = 'V' :: 'A' :: 'L' :: 'U' :: 'E' :: 'S' :: ' ' :: '('
        :: (joinCommaSpace vals ++ ')' :: []) := by
    simp [valuesTail]
  have hVB : tryValuesClause (valuesTail vals)
      = some (joinCommaSpace vals, []) := by
    rw [hVtail]
    exact tryValuesClause_at (joinCommaSpace vals) [] hVne hVall
  have hfindV : findFrom tryValuesClause (renderInsert t cols vals)
      = some ((headPrefix t cols).length, (joinCommaSpace vals, [])) := by
    show findFrom tryValuesClause (headPrefix t cols ++ valuesTail vals) = _
    exact findFrom_split _ _ _ _ hNoVal hVB
  have hrep1 : replaceAllM tryValuesClause (fun cap => [cap])
      (['V', 'A', 'L', 'U', 'E', 'S', ' ', '('] ++
        joinCommaSpace (vals.eraseIdx i) ++ [')'])
      (renderInsert t cols vals)
      = headPrefix t cols ++ valuesTail (vals.eraseIdx i) := by
    show replaceAllFuel _ _ _ ((renderInsert t cols vals).length + 1)
      (headPrefix t cols ++ valuesTail vals) = _
    rw [replaceAll_split tryValuesClause _ _ (headPrefix t cols)
      (valuesTail vals) [] (joinCommaSpace vals) _ hNoVal hVB rfl rfl
      (by simp [renderInsert])]
    rw [expandTemplate_noDollar _ _ hND1]
    simp [valuesTail]
  have hshapeI : headPrefix t cols ++ valuesTail (vals.eraseIdx i)
      = 'I' :: 'N' :: 'S' :: 'E' :: 'R' :: 'T' :: ' ' :: 'I' :: 'N' :: 'T'
        :: 'O' :: ' ' :: (t ++ ' ' :: '(' :: (joinCommaSpace cols ++ ')'
        :: (' ' :: valuesTail (vals.eraseIdx i)))) := by
    simp [headPrefix, insertIntoLit]
  have hheadI : tryInsertHead (headPrefix t cols ++ valuesTail (vals.eraseIdx i))
      = some (t, joinCommaSpace cols, ' ' :: valuesTail (vals.eraseIdx i)) := by
    rw [hshapeI]
    exact tryInsertHead_at t _ _ ht hCne hCall
  have hfindI : findFrom tryInsertHead
      (headPrefix t cols ++ valuesTail (vals.eraseIdx i))
      = some (0, (t, joinCommaSpace cols,
          ' ' :: valuesTail (vals.eraseIdx i))) :=
    findFrom_zero _ _ _ hheadI
  have hheadIR : tryInsertHeadR
      (headPrefix t cols ++ valuesTail (vals.eraseIdx i))
      = some ((t, joinCommaSpace cols),
          ' ' :: valuesTail (vals.eraseIdx i)) := by
    unfold tryInsertHeadR
    rw [hheadI]
    rfl
  have hrep2 : replaceAllM tryInsertHeadR (fun cap => [cap.1, cap.2])
      (['I', 'N', 'S', 'E', 'R', 'T', ' ', 'I', 'N', 'T', 'O', ' '] ++ t ++
        [' ', '('] ++ joinCommaSpace (cols.eraseIdx i) ++ [')'])
      (headPrefix t cols ++ valuesTail (vals.eraseIdx i))
      = renderInsert t (cols.eraseIdx i) (vals.eraseIdx i) := by
    show replaceAllFuel _ _ _ _
      ([] ++ (headPrefix t cols ++ valuesTail (vals.eraseIdx i))) = _
    rw [replaceAll_split tryInsertHeadR _ _ []
      (headPrefix t cols ++ valuesTail (vals.eraseIdx i))
      (' ' :: valuesTail (vals.eraseIdx i)) (t, joinCommaSpace cols) _
      rfl hheadIR hNoIns rfl (by simp)]
    rw [expandTemplate_noDollar _ _ hND2]
    simp [renderInsert, headPrefix, insertIntoLit]
  have hremove : removeIdColumnAndValue (renderInsert t cols vals) cols
      = (renderInsert t (cols.eraseIdx i) (vals.eraseIdx i), none) := by
    unfold removeIdColumnAndValue
    simp only [hid, hfindV, parseColumnList_join vals hv]
    rw [if_neg (by omega : ¬ vals.length ≤ i)]
    simp only [hrep1, hfindI, hrep2]
  -- predicate of the primary-key scan is true on pk
  have hpred : ((match lookupA info.autoIncrement pk with
      | some true => true
      | _ => false) && (lowerStr pk == ['i', 'd'])) = true := by
    rw [hauto, hpkid]
    rfl
  have hfindpk : List.find? (fun pkCol =>
      (match lookupA info.autoIncrement pkCol with
       | some true => true
       | _ => false) && (lowerStr pkCol == ['i', 'd'])) [pk] = some pk := by
    rw [List.find?]
    simp only [hpred]
  have htE : t.isEmpty = false := by
    rw [goodTableTok, Bool.and_eq_true] at ht
    cases t with
    | nil => simp at ht
    | cons a b => rfl
  refine ⟨?_, ?_, ?_⟩
  · unfold fixSeedingSQL
    simp only [hparse, htE, Bool.false_eq_true, if_false, hg, hpk,
      List.isEmpty_cons, Bool.not_false, Bool.and_true, Bool.and_self,
      if_true, hfindpk, hremove, henum, foldl_enumFixStep_nil]
  · rw [List.length_eraseIdx_of_lt hiLt]
    omega
  · rw [List.length_eraseIdx_of_lt hiv]
    omega

/-- C3 witness: repairing the concrete statement
`INSERT INTO users (id, name) VALUES (1, x)` against the `users` schema
(sole sequence-backed primary key `id`) yields
`INSERT INTO users (name) VALUES (x)`, with one fewer column and value. -/
theorem c3_id_removal_witness :
    fixSeedingSQL c3getInfo
        (renderInsert ['u', 's', 'e', 'r', 's']
          [['i', 'd'], ['n', 'a', 'm', 'e']] [['1'], ['x']])
      = (renderInsert ['u', 's', 'e', 'r', 's'] [['n', 'a', 'm', 'e']]
          [['x']], none) ∧
    ([['i', 'd'], ['n', 'a', 'm', 'e']].eraseIdx 0).length + 1 = 2 ∧
    ([['1'], ['x']].eraseIdx 0).length + 1 = 2 :=
  c3_id_removal ['u', 's', 'e', 'r', 's']
    [['i', 'd'], ['n', 'a', 'm', 'e']] [['1'], ['x']] 0 c3schema ['i', 'd']
    c3getInfo (by decide) (by decide) (by decide) (by decide) (by decide)
    (by decide) rfl rfl rfl rfl (by decide) rfl rfl (by decide) (by decide)

end Seedfast
